import Mathlib

/-!
Shallow embedding of the handy.js templating engine
(`src/packages/core/lib/htmlLogic.js`) and of the deep-equality helper
(`src/packages/handy/lib/operators.js`), together with theorems settling
the specification claims about them.

Modelling conventions, stated once:
* JavaScript values are modelled by `JVal`.  Numbers are modelled as
  integers (every numeric value appearing in the claims is an integer);
  `NaN` is a separate constructor.  Functions carry their source text
  (JS compares them via `Function.prototype.toString`), dates carry their
  millisecond value, regular expressions carry their printed source.
  Arrays and objects use the mutually defined list types `JList` and
  `JFields` so that all recursion is structural and executable.
* The ambient JavaScript `eval` is an external collaborator; it is
  modelled as an oracle function stored in the environment (`Env.evalE`),
  taking the expression text and the current process-wide storage.
  Where the source builds the evaluated string from a fixed template
  (`this.<path> = <json>`, `array[i].<path>`), the call is modelled
  directly by path lookup / path assignment on `JVal`.
* The DOM is a tree (`Node`) of element and text nodes.  Reading
  `innerHTML` serializes the children; assigning `innerHTML` parses the
  assigned string (a simplified HTML parser covering the markup the
  engine emits).  The `style` property is kept as a separate field and is
  not serialized (no claim depends on serialized style properties).
-/

mutual

/-- JavaScript runtime values, restricted to the plain data the engine and
the operator module manipulate. -/
inductive JVal where
  | undef : JVal
  | null : JVal
  | bool : Bool → JVal
  | num : Int → JVal
  | nan : JVal
  | str : String → JVal
  | func : String → JVal
  | date : Int → JVal
  | regex : String → JVal
  | arr : JList → JVal
  | obj : JFields → JVal

/-- A list of JS values (the element list of an array value). -/
inductive JList where
  | nil : JList
  | cons : JVal → JList → JList

/-- The own enumerable fields of a JS object, in property order. -/
inductive JFields where
  | nil : JFields
  | cons : String → JVal → JFields → JFields

end

/-- Whitespace trim of both ends (the JS `String.prototype.trim`,
restricted to ASCII whitespace), written over the character list so that
it evaluates by kernel reduction. -/
def trimStr (s : String) : String :=
  ⟨((s.data.dropWhile Char.isWhitespace).reverse.dropWhile Char.isWhitespace).reverse⟩

/-- Split on the dot separator (the `item.split "."` of the source),
written over the character list so that it evaluates by kernel
reduction. -/
def splitCoreDot : List Char → List Char → List String
  | [], acc => [⟨acc.reverse⟩]
  | c :: cs, acc =>
      if c == '.' then ⟨acc.reverse⟩ :: splitCoreDot cs [] else splitCoreDot cs (c :: acc)

/-- The dotted-path segmentation of a `set`/`item` path. -/
def splitDots (s : String) : List String := splitCoreDot s.data []

/-- Prefix test on strings by character list (kernel reducible). -/
def strIsPrefixOf (t s : String) : Bool := t.data.isPrefixOf s.data

/-- Suffix test on strings by character list (kernel reducible). -/
def strEndsWith (s t : String) : Bool := t.data.reverse.isPrefixOf s.data.reverse

namespace JList

/-- View as an ordinary Lean list. -/
def toList : JList → List JVal
  | .nil => []
  | .cons v tl => [v] ++ toList tl

/-- Number of elements. -/
def length : JList → Nat
  | .nil => 0
  | .cons _ tl => length tl + 1

/-- Indexing with a default (the JS `array[i]`, `undefined` out of range). -/
def getD : JList → Nat → JVal → JVal
  | .nil, _, d => d
  | .cons v _, 0, _ => v
  | .cons _ tl, i + 1, d => getD tl i d

end JList

namespace JFields

/-- View as an ordinary Lean association list. -/
def toList : JFields → List (String × JVal)
  | .nil => []
  | .cons k v tl => [(k, v)] ++ toList tl

/-- Number of fields. -/
def length : JFields → Nat
  | .nil => 0
  | .cons _ _ tl => length tl + 1

/-- The keys, in property order (`Object.keys`). -/
def keys : JFields → List String
  | .nil => []
  | .cons k _ tl => [k] ++ keys tl

/-- First binding of a key, if any. -/
def lookup : JFields → String → Option JVal
  | .nil, _ => none
  | .cons k v tl, q => if k == q then some v else lookup tl q

/-- Replace the binding of `k` in place, or append it; models JS property
assignment order. -/
def insert : JFields → String → JVal → JFields
  | .nil, k, v => .cons k v .nil
  | .cons k' v' tl, k, v =>
      if k' == k then .cons k v tl else .cons k' v' (insert tl k v)

end JFields

namespace JVal

mutual

/-- Structural size, used as fuel for the non-structural recursions below. -/
def jsize : JVal → Nat
  | .arr xs => jsizeL xs + 1
  | .obj fs => jsizeF fs + 1
  | _ => 1

/-- Structural size of an element list. -/
def jsizeL : JList → Nat
  | .nil => 1
  | .cons v tl => jsize v + jsizeL tl + 1

/-- Structural size of a field list. -/
def jsizeF : JFields → Nat
  | .nil => 1
  | .cons _ v tl => jsize v + jsizeF tl + 1

end

/-- Abstract stand-in for the (implementation formatted) string of a date. -/
def dateText (ms : Int) : String := "Date(" ++ toString ms ++ ")"

mutual

/-- String coercion (the JS `String(v)` / `"" + v` conversion). -/
def jsToString : JVal → String
  | .undef => "undefined"
  | .null => "null"
  | .bool b => if b then "true" else "false"
  | .num n => toString n
  | .nan => "NaN"
  | .str s => s
  | .func s => s
  | .date ms => dateText ms
  | .regex s => s
  | .arr xs => jsToStringArr xs
  | .obj _ => "[object Object]"

/-- The comma join of `Array.prototype.toString`; `null` and `undefined`
elements print as the empty string there. -/
def jsToStringArr : JList → String
  | .nil => ""
  | .cons v tl =>
      (match v with
        | .undef => ""
        | .null => ""
        | .bool b => if b then "true" else "false"
        | .num n => toString n
        | .nan => "NaN"
        | .str s => s
        | .func s => s
        | .date ms => dateText ms
        | .regex s => s
        | .arr xs => jsToStringArr xs
        | .obj _ => "[object Object]")
      ++ (match tl with
        | .nil => ""
        | t => "," ++ jsToStringArr t)

end

/-- The `v.toString()` method call: throws on `undefined` and `null`. -/
def jsToStrE : JVal → Except String String
  | .undef => .error "TypeError: toString of undefined"
  | .null => .error "TypeError: toString of null"
  | v => .ok (jsToString v)

/-- Truthiness of a JS value. -/
def truthy : JVal → Bool
  | .undef => false
  | .null => false
  | .bool b => b
  | .num n => n != 0
  | .nan => false
  | .str s => s != ""
  | _ => true

/-- Integer value of a list of decimal digits. -/
def digitsVal (ds : List Char) : Int :=
  ds.foldl (fun acc d => acc * 10 + ((d.toNat : Int) - ('0'.toNat : Int))) 0

/-- The JS `ToNumber` conversion on strings, restricted to optionally
signed decimal integers and whitespace (the forms the claims exercise);
`none` stands for `NaN`. -/
def toNumber (s : String) : Option Int :=
  let t := trimStr s
  if t = "" then some 0
  else match t.data with
    | '-' :: ds => if ds ≠ [] ∧ ds.all Char.isDigit then some (-(digitsVal ds)) else none
    | '+' :: ds => if ds ≠ [] ∧ ds.all Char.isDigit then some (digitsVal ds) else none
    | ds => if ds.all Char.isDigit then some (digitsVal ds) else none

/-- The loose comparison `v == 0` of the source (`codeAtr`): numbers
compare directly, booleans and strings through `ToNumber`, `null`,
`undefined` and `NaN` are not loosely equal to `0`, arrays go through
`ToPrimitive` (their string form), other objects convert to a
non-numeric string. -/
def looseEqZero : JVal → Bool
  | .num n => n == 0
  | .nan => false
  | .bool b => b == false
  | .str s => toNumber s == some 0
  | .null => false
  | .undef => false
  | .arr xs => toNumber (jsToString (.arr xs)) == some 0
  | .obj _ => false
  | .func s => toNumber s == some 0
  | .date _ => false
  | .regex _ => false

/-- Does `JSON.stringify` drop this value when it is an object field? -/
def jsonDropped : JVal → Bool
  | .undef => true
  | .func _ => true
  | _ => false

/-- Escape a string for inclusion in a JSON literal. -/
def escapeJson (s : String) : String :=
  s.data.foldr (fun c acc =>
    if c = '\\' then "\\\\" ++ acc
    else if c = '"' then "\\\"" ++ acc
    else String.singleton c ++ acc) ""

mutual

/-- The `JSON.stringify` serialization.  `undefined` and functions only
appear through array positions (as `null`); object fields holding them
are filtered out. -/
def jsonStringify : JVal → String
  | .num n => toString n
  | .nan => "null"
  | .str s => "\"" ++ escapeJson s ++ "\""
  | .bool b => if b then "true" else "false"
  | .null => "null"
  | .undef => "null"
  | .func _ => "null"
  | .date ms => "\"" ++ dateText ms ++ "\""
  | .regex _ => "\x7b\x7d"
  | .arr xs => "[" ++ jsonStringifyArr xs ++ "]"
  | .obj fs => "\x7b" ++ jsonStringifyObj fs ++ "\x7d"

/-- Comma-joined serializations of the array elements. -/
def jsonStringifyArr : JList → String
  | .nil => ""
  | .cons v .nil => jsonStringify v
  | .cons v tl => jsonStringify v ++ "," ++ jsonStringifyArr tl

/-- Comma-joined serializations of the surviving object fields. -/
def jsonStringifyObj : JFields → String
  | .nil => ""
  | .cons k v tl =>
      if jsonDropped v then jsonStringifyObj tl
      else match jsonStringifyObj tl with
        | "" => "\"" ++ escapeJson k ++ "\":" ++ jsonStringify v
        | rest => "\"" ++ escapeJson k ++ "\":" ++ jsonStringify v ++ "," ++ rest

end

mutual

/-- The value stored by a `JSON.parse (JSON.stringify v)` round trip when
`v` sits inside an array or an object field that survives filtering. -/
def jsonRoundN : JVal → JVal
  | .nan => .null
  | .undef => .null
  | .func _ => .null
  | .date ms => .str (dateText ms)
  | .regex _ => .obj .nil
  | .arr xs => .arr (jsonRoundArr xs)
  | .obj fs => .obj (jsonRoundObj fs)
  | v => v

/-- Round trip of the elements of an array. -/
def jsonRoundArr : JList → JList
  | .nil => .nil
  | .cons v tl => .cons (jsonRoundN v) (jsonRoundArr tl)

/-- Round trip of the fields of an object (fields holding `undefined` or a
function are dropped). -/
def jsonRoundObj : JFields → JFields
  | .nil => .nil
  | .cons k v tl =>
      if jsonDropped v then jsonRoundObj tl
      else .cons k (jsonRoundN v) (jsonRoundObj tl)

end

/-- The value the interpolated assignment `this.<path> = JSON.stringify v`
stores (`set` in `dataAtr`): at top level `undefined` and functions
stringify to the token `undefined`, which the evaluated assignment stores
as `undefined`. -/
def jsonRound : JVal → JVal
  | .undef => .undef
  | .func _ => .undef
  | v => jsonRoundN v

/-- Dotted-path lookup, modelling `eval ("this." ++ path)` on a stored
object: reading a property of `undefined` or `null` throws, reading a
missing property (or a property of another primitive) yields `undefined`.
The recursion is structural on the path. -/
def getPathE : List String → JVal → Except String JVal
  | [], v => .ok v
  | k :: rest, v =>
      match v with
      | .undef => .error ("TypeError: cannot read " ++ k ++ " of undefined")
      | .null => .error ("TypeError: cannot read " ++ k ++ " of null")
      | .obj fs => getPathE rest ((fs.lookup k).getD .undef)
      | _ => getPathE rest (.undef)

/-- Dotted-path assignment, modelling `eval ("this." ++ path ++ " = v")`
in sloppy mode: assigning through `undefined`/`null` throws, assigning a
property on another primitive is silently ignored, otherwise the field is
replaced or appended.  The recursion is structural on the path. -/
def setPathE : List String → JVal → JVal → Except String JVal
  | [], _, nv => .ok nv
  | [k], v, nv =>
      match v with
      | .obj fs => .ok (.obj (fs.insert k nv))
      | .undef => .error ("TypeError: cannot set " ++ k ++ " of undefined")
      | .null => .error ("TypeError: cannot set " ++ k ++ " of null")
      | w => .ok w
  | k :: rest, v, nv =>
      match v with
      | .undef => .error ("TypeError: cannot set " ++ k ++ " of undefined")
      | .null => .error ("TypeError: cannot set " ++ k ++ " of null")
      | .obj fs =>
          match fs.lookup k with
          | some sub => (setPathE rest sub nv).map (fun sub' => .obj (fs.insert k sub'))
          | none => .error ("TypeError: cannot set through missing " ++ k)
      | _ => .error ("TypeError: cannot set through " ++ k)

/-- Fields of an object value (empty for every other value). -/
def fieldsOf : JVal → JFields
  | .obj fs => fs
  | _ => .nil

/-- Length the `loopEle` iteration sees (`new Object(x).length`): arrays
and strings have their length, every other value gives `undefined`, and
`i < undefined` is false, so the loop body runs zero times. -/
def jsLen : JVal → Nat
  | .arr xs => xs.length
  | .str s => s.length
  | _ => 0

/-- Indexing `array[i]` as used by `loopEle`. -/
def jsIndex : JVal → Nat → JVal
  | .arr xs, i => xs.getD i .undef
  | .str s, i => .str (String.singleton (s.data.getD i ' '))
  | _, _ => .undef

end JVal

mutual

/-- A DOM node: an element (tag name, attributes in document order, style
properties, children) or a text node. -/
inductive Node where
  | elt : String → List (String × String) → List (String × String) → NodeList → Node
  | txt : String → Node

/-- A list of sibling DOM nodes. -/
inductive NodeList where
  | nil : NodeList
  | cons : Node → NodeList → NodeList

end

namespace NodeList

/-- Number of nodes. -/
def length : NodeList → Nat
  | .nil => 0
  | .cons _ tl => length tl + 1

/-- Append two sibling lists. -/
def append : NodeList → NodeList → NodeList
  | .nil, ys => ys
  | .cons x tl, ys => .cons x (append tl ys)

end NodeList

namespace Node

/-- Tag name of an element (`localName`); text nodes have none. -/
def tagOf : Node → String
  | .elt t _ _ _ => t
  | .txt _ => ""

/-- Attribute list of a node. -/
def attrsOf : Node → List (String × String)
  | .elt _ a _ _ => a
  | .txt _ => []

/-- Children of a node. -/
def childrenOf : Node → NodeList
  | .elt _ _ _ cs => cs
  | .txt _ => .nil

/-- The `getAttribute` read: `none` plays the role of the JS `null`. -/
def getA (n : Node) (k : String) : Option String :=
  (attrsOf n).lookup k

/-- Truthiness of `getAttribute(k)`: present with a non-empty value. -/
def truthyA (n : Node) (k : String) : Bool :=
  match getA n k with
  | some v => v != ""
  | none => false

/-- The guard `getAttribute(k) == "" || getAttribute(k)`: equivalent to
attribute presence (the JS `null == ""` is false). -/
def presentA (n : Node) (k : String) : Bool :=
  (getA n k).isSome

/-- Replace the binding of `k` in an association list (keeping its
position) or append it, as `setAttribute` does. -/
def insertAssocS : List (String × String) → String → String → List (String × String)
  | [], k, v => [(k, v)]
  | (k', v') :: rest, k, v =>
      if k' == k then (k, v) :: rest else (k', v') :: insertAssocS rest k v

/-- The `setAttribute` write (no effect on text nodes). -/
def setAttr : Node → String → String → Node
  | .elt t a st cs, k, v => .elt t (insertAssocS a k v) st cs
  | .txt s, _, _ => .txt s

/-- Assignment of one style property (`ele.style.x = v`). -/
def setStyle : Node → String → String → Node
  | .elt t a st cs, k, v => .elt t a (insertAssocS st k v) cs
  | .txt s, _, _ => .txt s

mutual

/-- Serialization of a node back to markup (`outerHTML`).  Attribute
values are always double quoted; the `style` property store is not
serialized (see the module header). -/
def serialize : Node → String
  | .txt s => s
  | .elt t a _ cs =>
      "<" ++ t ++ String.join (a.map (fun p => " " ++ p.1 ++ "=\"" ++ p.2 ++ "\"")) ++ ">"
        ++ serializeL cs ++ "</" ++ t ++ ">"

/-- Serialization of a sibling list (`innerHTML` of the parent). -/
def serializeL : NodeList → String
  | .nil => ""
  | .cons n tl => serialize n ++ serializeL tl

end

/-- The `innerHTML` read. -/
def innerStr : Node → String
  | .elt _ _ _ cs => serializeL cs
  | .txt _ => ""

end Node

namespace HandyStr

/-- Core of `String.prototype.replaceAll` with a plain-string pattern:
leftmost, non-overlapping scan.  Occurrences of `$` in the replacement
are taken literally (no input of the claims uses `$` patterns).  The fuel
is the length of the subject plus one. -/
def replaceCore (t r : List Char) : Nat → List Char → List Char
  | 0, cs => cs
  | _ + 1, [] => []
  | f + 1, c :: cs =>
      if t ≠ [] ∧ t.isPrefixOf (c :: cs) then r ++ replaceCore t r f ((c :: cs).drop t.length)
      else c :: replaceCore t r f cs

/-- The JS `s.replaceAll (t, r)` for plain-string arguments. -/
def replaceAllStr (s t r : String) : String :=
  ⟨replaceCore t.data r.data (s.data.length + 1) s.data⟩

/-- The intermediate rewrite of `insideAtr`: every `_(` becomes `{{{` and
every `)_` becomes `}}}`. -/
def bracesRewrite (s : String) : String :=
  replaceAllStr (replaceAllStr s "_(" "\x7b\x7b\x7b") ")_" "\x7d\x7d\x7d"

/-- Substring occurrence test (used to state that the error banner
contains the failure message). -/
def occursStr (t s : String) : Bool :=
  s.data.tails.any (fun suf => t.data.isPrefixOf suf)

end HandyStr

namespace HtmlParse

/-- Characters allowed in a tag name (covers names such as `temp.create`). -/
def isNameChar (c : Char) : Bool :=
  c.isAlphanum || c == '-' || c == '.' || c == '_' || c == ':'

/-- Characters allowed in an attribute name. -/
def isAttrNameChar (c : Char) : Bool :=
  !(c == ' ' || c == '=' || c == '>' || c == '/' || c == '"' || c == '\'' ||
    c == '\n' || c == '\t' || c == '\r' || c == '<')

/-- Whitespace inside a tag. -/
def isWs (c : Char) : Bool :=
  c == ' ' || c == '\n' || c == '\t' || c == '\r'

/-- Parse the attribute list of an open tag, consuming the closing `>`.
Attributes may be double quoted, single quoted, unquoted or valueless. -/
def parseAttrsF : Nat → List Char → List (String × String) × List Char
  | 0, cs => ([], cs)
  | f + 1, cs =>
      let cs := cs.dropWhile isWs
      match cs with
      | [] => ([], [])
      | '>' :: rest => ([], rest)
      | '/' :: rest => parseAttrsF f rest
      | _ =>
          let (nm, r1) := cs.span isAttrNameChar
          if nm.isEmpty then parseAttrsF f (cs.drop 1)
          else
            match r1 with
            | '=' :: '"' :: r2 =>
                let (v, r3) := r2.span (fun c => c ≠ '"')
                let (rest, r4) := parseAttrsF f (r3.drop 1)
                ((⟨nm⟩, ⟨v⟩) :: rest, r4)
            | '=' :: '\'' :: r2 =>
                let (v, r3) := r2.span (fun c => c ≠ '\'')
                let (rest, r4) := parseAttrsF f (r3.drop 1)
                ((⟨nm⟩, ⟨v⟩) :: rest, r4)
            | '=' :: r2 =>
                let (v, r3) := r2.span (fun c => ¬ (isWs c || c == '>'))
                let (rest, r4) := parseAttrsF f r3
                ((⟨nm⟩, ⟨v⟩) :: rest, r4)
            | _ =>
                let (rest, r4) := parseAttrsF f r1
                ((⟨nm⟩, "") :: rest, r4)

/-- Skip a closing tag (`</name>`), leniently ignoring the name. -/
def dropClose : List Char → List Char
  | '<' :: '/' :: r => (r.dropWhile (fun c => c ≠ '>')).drop 1
  | cs => cs

/-- Recursive descent over markup: returns the parsed sibling nodes and
the unconsumed rest (stopping in front of a closing tag).  A `<` that
does not open a tag is treated as text, as browsers do. -/
def parseNodesF : Nat → List Char → NodeList × List Char
  | 0, cs => (.nil, cs)
  | _ + 1, [] => (.nil, [])
  | _ + 1, cs@('<' :: '/' :: _) => (.nil, cs)
  | f + 1, '<' :: c :: rest =>
      if c.isAlpha then
        let (tagL, r1) := (c :: rest).span isNameChar
        let (attrs, r2) := parseAttrsF (r1.length + 1) r1
        let (kids, r3) := parseNodesF f r2
        let r4 := dropClose r3
        let (sibs, r5) := parseNodesF f r4
        (.cons (.elt ⟨tagL⟩ attrs [] kids) sibs, r5)
      else
        let (sibs, r) := parseNodesF f (c :: rest)
        (.cons (.txt "<") sibs, r)
  | _ + 1, ['<'] => (.cons (.txt "<") .nil, [])
  | f + 1, cs =>
      let (t, r1) := cs.span (fun c => c ≠ '<')
      let (sibs, r2) := parseNodesF f r1
      (.cons (.txt ⟨t⟩) sibs, r2)

/-- Parse a markup string into a node list (the `innerHTML` assignment). -/
def parseStr (s : String) : NodeList :=
  (parseNodesF (s.length * 2 + 4) s.data).1

/-- Serialization of the parse of a string: the string the engine observes
after writing markup through `innerHTML` and reading it back. -/
def canonStr (s : String) : String :=
  Node.serializeL (parseStr s)

/-- The `elementFromHtml` materializer: first element of the parse of the
trimmed markup (`template.content.firstElementChild`). -/
def firstEltOf : NodeList → Option Node
  | .nil => none
  | .cons (.elt t a st cs) _ => some (.elt t a st cs)
  | .cons (.txt _) tl => firstEltOf tl

/-- The `elementFromHtml` helper of the source. -/
def elementFromHtml (html : String) : Option Node :=
  firstEltOf (parseStr (trimStr html))

end HtmlParse

namespace Node

/-- The `innerHTML` assignment: parse the string into fresh children. -/
def setInnerStr : Node → String → Node
  | .elt t a st _, s => .elt t a st (HtmlParse.parseStr s)
  | .txt s, _ => .txt s

mutual

/-- Map over the descendants matched by a predicate, in document order, as
`querySelectorAll(sel).forEach(f)` does.  A matched descendant is not
searched inside (the snapshot the browser iterates holds the pre-mutation
descendants; no input of the claims nests matches). -/
def mapDesc (p : Node → Bool) (f : Node → Node) : Node → Node
  | .txt s => .txt s
  | .elt t a st cs => .elt t a st (mapDescL p f cs)

/-- List part of `mapDesc`. -/
def mapDescL (p : Node → Bool) (f : Node → Node) : NodeList → NodeList
  | .nil => .nil
  | .cons c tl =>
      .cons (if p c then f c else mapDesc p f c) (mapDescL p f tl)

end

mutual

/-- Effectful variant of `mapDesc` (the per-item updates of `loopEle`,
whose evaluation can throw). -/
def mapDescE (p : Node → Bool) (f : Node → Except String Node) : Node → Except String Node
  | .txt s => .ok (.txt s)
  | .elt t a st cs => (mapDescEL p f cs).map (fun cs' => .elt t a st cs')

/-- List part of `mapDescE`. -/
def mapDescEL (p : Node → Bool) (f : Node → Except String Node) :
    NodeList → Except String NodeList
  | .nil => .ok .nil
  | .cons c tl => do
      let c' ← if p c then f c else mapDescE p f c
      let tl' ← mapDescEL p f tl
      .ok (.cons c' tl')

end

end Node

/-- Replace the binding of a key in an association list (keeping its
position) or append it. -/
def assocSet {α : Type} : List (String × α) → String → α → List (String × α)
  | [], k, v => [(k, v)]
  | (k', v') :: rest, k, v =>
      if k' == k then (k, v) :: rest else (k', v') :: assocSet rest k v

/-- The ambient state the engine runs in: the process-wide storage
(`window` names written by `dataAtr` and `loopEle`), the expression
evaluator oracle, and the three snapshot registries built at load time
(`allDataElements`, `getTempsElements`, `getTempsElementsUI`). -/
structure Env where
  window : List (String × JVal)
  evalE : String → List (String × JVal) → Except String JVal
  dataSnapshots : List Node
  temps : List Node
  tempsUI : List Node

/-- Result of one resolver on one element: either the updated state and
element, or a thrown failure carrying the state at the throw point (side
effects before a JS `throw` persist) and the failure message. -/
abbrev Rslt := Except (Env × Node × String) (Env × Node)

namespace Resolvers

open JVal Node HandyStr HtmlParse

/-- The string rendered for a `code` evaluation result:
`val ? val : val == 0 ? 0 : ''` followed by the `innerHTML` coercion. -/
def renderCode (v : JVal) : String :=
  if truthy v then jsToString v else if looseEqZero v then "0" else ""

/-- The `codeAtr` resolver: evaluate the attribute value if non-empty,
otherwise the current content, and store the rendered result. -/
def codeAtr (env : Env) (ele : Node) : Rslt :=
  let expr := match getA ele "code" with
    | some v => if v != "" then v else innerStr ele
    | none => innerStr ele
  match env.evalE expr env.window with
  | .error m => .error (env, ele, m)
  | .ok v => .ok (env, setInnerStr ele (renderCode v))

/-- The `textAtr` resolver: the literal attribute value becomes the
content (no evaluation). -/
def textAtr (env : Env) (ele : Node) : Rslt :=
  .ok (env, setInnerStr ele ((getA ele "text").getD ""))

/-- The `ifAtr` resolver: a falsy condition hides the element; nothing is
restored otherwise. -/
def ifAtr (env : Env) (ele : Node) : Rslt :=
  let con := (getA ele "if").getD ""
  match env.evalE con env.window with
  | .error m => .error (env, ele, m)
  | .ok v => if ¬ truthy v then .ok (env, setStyle ele "display" "none") else .ok (env, ele)

/-- Assign evaluated style fields one by one (`Object.assign` onto
`ele.style`, values coerced to strings). -/
def applyStyles : JFields → Node → Node
  | .nil, e => e
  | .cons k v tl, e => applyStyles tl (setStyle e k (jsToString v))

/-- The `styleAtr` resolver. -/
def styleAtr (env : Env) (ele : Node) : Rslt :=
  let st := (getA ele "styling").getD ""
  match env.evalE ("new Object(" ++ st ++ ")") env.window with
  | .error m => .error (env, ele, m)
  | .ok v => .ok (env, applyStyles (fieldsOf v) ele)

/-- Scanner for the global replacement of `/{{{[^\x7d/]+}}}/`: at each
position a match needs `{{{`, then a maximal non-empty run free of `}`
and `/`, then `}}}`; on failure the scan advances one character, as the
regex engine does.  The evaluator is applied to the run and its result
(coerced to a string by the caller) is spliced in; a thrown evaluation
aborts the whole replacement. -/
def scanBr (ev : String → Except String String) : Nat → List Char → Except String (List Char)
  | 0, cs => .ok cs
  | _ + 1, [] => .ok []
  | f + 1, c :: cs =>
      let rest := (c :: cs).drop 3
      let run := rest.takeWhile (fun d => !(d == '}' || d == '/'))
      let r1 := rest.dropWhile (fun d => !(d == '}' || d == '/'))
      if ['{', '{', '{'].isPrefixOf (c :: cs) && !run.isEmpty && ['}', '}', '}'].isPrefixOf r1
      then do
        let rep ← ev ⟨run⟩
        let out ← scanBr ev f (r1.drop 3)
        .ok (rep.data ++ out)
      else do
        let out ← scanBr ev f cs
        .ok (c :: out)

/-- The `insideAtr` resolver: rewrite `_(` and `)_` to the triple-brace
form, store that, then replace the brace spans by their evaluated
results. -/
def insideAtr (env : Env) (ele : Node) : Rslt :=
  let s2 := bracesRewrite (innerStr ele)
  let ele1 := setInnerStr ele s2
  let s3 := innerStr ele1
  match scanBr (fun e => (env.evalE e env.window).map jsToString) (s3.length + 1) s3.data with
  | .error m => .error (env, ele1, m)
  | .ok out => .ok (env, setInnerStr ele1 ⟨out⟩)

/-- The expression the `data` resolver evaluates; a missing attribute
interpolates as the text `null` (and `new Object(null)` is `{}`). -/
def dataExprOf (ele : Node) : String :=
  " new Object(" ++ ((getA ele "data").getD "null") ++ ")"

/-- One step of the named-binding `replaceAll`: substitute `_key_` tokens
by the field value (the reserved `set` key is skipped; the installed
`set` closure itself lives outside the modelled object). -/
def replFieldNamed (ele : Node) (k : String) (v : JVal) : Node :=
  if k == "set" then ele
  else setInnerStr ele (replaceAllStr (innerStr ele) ("_" ++ k ++ "_") (jsToString v))

/-- The named-binding `replaceAll` loop over the stored fields. -/
def replaceFieldsEle : JFields → Node → Node
  | .nil, ele => ele
  | .cons k v tl, ele => replaceFieldsEle tl (replFieldNamed ele k v)

/-- Elements of an array-valued anonymous field, rendered as
`'e1','e2',…` (each element string-coerced between single quotes). -/
def quotedJoin : JList → String
  | .nil => ""
  | .cons v .nil => "'" ++ jsToString v ++ "'"
  | .cons v tl => "'" ++ jsToString v ++ "'," ++ quotedJoin tl

/-- The string substituted for `_key_` by an anonymous binding: arrays
render as a bracketed quoted list, everything else string-coerces. -/
def anonFieldStr : JVal → String
  | .arr xs => "[" ++ quotedJoin xs ++ "]"
  | v => jsToString v

/-- The anonymous-binding substitution loop. -/
def replaceFieldsAnon : JFields → Node → Node
  | .nil, ele => ele
  | .cons k v tl, ele =>
      replaceFieldsAnon tl
        (setInnerStr ele (replaceAllStr (innerStr ele) ("_" ++ k ++ "_") (anonFieldStr v)))

/-- The `dataAtr` resolver.  With a truthy `name` attribute the evaluated
object is stored process-wide under that name (the `set` mutator is
modelled separately by `setFun`) and `_key_` tokens are substituted;
without one the substitution happens anonymously (arrays quoted). -/
def dataAtr (env : Env) (ele : Node) : Rslt :=
  if truthyA ele "name" then
    match env.evalE (dataExprOf ele) env.window with
    | .error m => .error (env, ele, m)
    | .ok d =>
        let nm := (getA ele "name").getD ""
        let env1 := { env with window := assocSet env.window nm d }
        .ok (env1, replaceFieldsEle (fieldsOf d) ele)
  else
    match env.evalE (dataExprOf ele) env.window with
    | .error m => .error (env, ele, m)
    | .ok d => .ok (env, replaceFieldsAnon (fieldsOf d) ele)

/-- Per-item update of one `[item]` descendant during a loop iteration:
only items whose `of` names this loop are touched; a truthy `item` value
projects the indexed element through the dotted path, otherwise the whole
indexed element is rendered. -/
def itemUpd (arrv : JVal) (i : Nat) (nm : String) (c : Node) : Except String Node :=
  if getA c "of" == some nm then
    if truthyA c "item" then
      (getPathE (splitDots ((getA c "item").getD "")) (jsIndex arrv i)).map
        (fun v => setInnerStr c (jsToString v))
    else .ok (setInnerStr c (jsToString (jsIndex arrv i)))
  else .ok c

/-- The iteration of `loopEle`: for each index, run the `[item]` pass,
append the current content to the accumulator, then replace the
`i_<name>` and `v_<name>` tokens in the whole accumulator.  On a thrown
item evaluation the element observed is the one from the start of the
iteration (the partially updated live tree is not modelled; no claim
depends on it). -/
def loopSteps (nm : String) (arrv : JVal) :
    List Nat → Node → String → Except (Node × String) (Node × String)
  | [], ele, res => .ok (ele, res)
  | i :: is, ele, res =>
      match Node.mapDescE (fun c => presentA c "item") (itemUpd arrv i nm) ele with
      | .error m => .error (ele, m)
      | .ok ele1 =>
          let r1 := res ++ innerStr ele1
          let r2 := replaceAllStr r1 ("i_" ++ nm) (toString i)
          let r3 := replaceAllStr r2 ("v_" ++ nm) (jsToString (jsIndex arrv i))
          loopSteps nm arrv is ele1 r3

/-- The `loopEle` resolver. -/
def loopEle (env : Env) (ele : Node) : Rslt :=
  let nm := (getA ele "loop").getD ""
  let inE := (getA ele "in").getD ""
  match env.evalE (" new Object(" ++ inE ++ ")") env.window with
  | .error m => .error (env, ele, m)
  | .ok arrv =>
      let env1 := { env with window := assocSet env.window nm arrv }
      match loopSteps nm arrv (List.range (jsLen arrv)) ele "" with
      | .error (ele1, m) => .error (env1, ele1, m)
      | .ok (ele1, res) => .ok (env1, setInnerStr ele1 res)

/-- Projection of one caller attribute onto one `[target]` descendant of
the cloned template: a `slot.class` attribute appends to the target's
class value (a missing class reads as the JS string `null`), any other
`slot.key` attribute replaces the target's `key`. -/
def projectOne (att v : String) (tgt : Node) : Node :=
  let targetName := (getA tgt "target").getD ""
  if strIsPrefixOf (targetName ++ ".") att then
    let suffix := att.drop (targetName.length + 1)
    if suffix == "class" then
      setAttr tgt suffix (((getA tgt "class").getD "null") ++ " " ++ v)
    else setAttr tgt suffix v
  else tgt

/-- Projection of every caller attribute onto every `[target]` descendant
of the clone, in attribute order. -/
def projectAtts (ele : Node) (clone : Node) : Node :=
  (attrsOf ele).foldl
    (fun cl p => Node.mapDesc (fun c => presentA c "target") (projectOne p.1 p.2) cl) clone

/-- Expansion of the calling element against one matching template
snapshot: clone the snapshot, project the caller attributes, substitute
the `_children_` placeholder by the caller's current content, store the
result and re-run the data resolver on the caller. -/
def expandOne (env : Env) (ele : Node) (temp : Node) : Rslt :=
  let clone := (elementFromHtml (serialize temp)).getD (.elt "div" [] [] .nil)
  let clone2 := projectAtts ele clone
  let ele1 := setInnerStr ele (replaceAllStr (innerStr clone2) "_children_" (innerStr ele))
  dataAtr env ele1

/-- The `getTemp` resolver: derive the template name by dropping the
trailing marker, choose the registry (`from="handy-ui"` selects the
library snapshots), then run the expansion for every snapshot whose
`name` matches, in registry order (a thrown expansion propagates). -/
def getTemp (env : Env) (ele : Node) : Rslt :=
  let nm := (tagOf ele).dropRight 1
  let temps := if getA ele "from" == some "handy-ui" then env.tempsUI else env.temps
  temps.foldl
    (fun st temp =>
      match st with
      | .error e => .error e
      | .ok (env', ele') =>
          if getA temp "name" == some nm then expandOne env' ele' temp else .ok (env', ele'))
    (.ok (env, ele))

end Resolvers

namespace Walker

open Node Resolvers HandyStr HtmlParse

/-- Trigger of the loop resolver: `getAttribute("loop")` is truthy. -/
def guardLoop (c : Node) : Bool := truthyA c "loop"

/-- Trigger of the data resolver: `getAttribute("data")` is truthy. -/
def guardData (c : Node) : Bool := truthyA c "data"

/-- Trigger of the inline-code resolver:
`getAttribute("code") == "" || getAttribute("code")`, which holds exactly
when the attribute is present (the JS `null == ""` is false). -/
def guardCode (c : Node) : Bool := presentA c "code"

/-- Trigger of the conditional resolver: `getAttribute("if")` is truthy. -/
def guardIf (c : Node) : Bool := truthyA c "if"

/-- Trigger of the inline-style resolver: `getAttribute("styling")` is
truthy. -/
def guardStyling (c : Node) : Bool := truthyA c "styling"

/-- Trigger of the expression-substitution resolver:
`getAttribute("inside") == "" || getAttribute("inside")`, i.e. attribute
presence. -/
def guardInside (c : Node) : Bool := presentA c "inside"

/-- Trigger of template expansion: the tag name's last character is the
marker `.` (`localName.substr(-1) == "."`). -/
def guardTemp (c : Node) : Bool := strEndsWith (tagOf c) "."

/-- Trigger of the literal-text resolver: `getAttribute("text")` is
truthy. -/
def guardText (c : Node) : Bool := truthyA c "text"

/-- One guarded stage of the per-element resolver chain: skipped when the
guard is false, short-circuited when an earlier stage has thrown. -/
def phase (g : Node → Bool) (r : Env → Node → Rslt) : Rslt → Rslt
  | .error e => .error e
  | .ok (env, c) => if g c then r env c else .ok (env, c)

/-- The body of the per-child `try` block of `htmlLogic`: the eight
guarded resolvers in source order (loop, data, code, if, styling, inside,
template, text). -/
def step (env : Env) (c : Node) : Rslt :=
  phase guardText textAtr
    (phase guardTemp getTemp
      (phase guardInside insideAtr
        (phase guardStyling styleAtr
          (phase guardIf ifAtr
            (phase guardCode codeAtr
              (phase guardData dataAtr
                (phase guardLoop loopEle (.ok (env, c)))))))))

/-- Style fragment of the inline error banner. -/
def bannerStyleStr : String :=
  "background:#f003;color:#f00;padding:4px 10px;width:fit-content;border-radius:8px;"

/-- The markup the `catch` block assigns to the failing element. -/
def bannerHtml (msg : String) : String :=
  "<div style='" ++ bannerStyleStr ++ "'>" ++ msg ++ "</div>"

/-- The `try`/`catch` around the resolvers of one child, continued by `f`
(the recursive walk into the — possibly rewritten — child): a thrown
failure is caught, the failing child's content becomes the error banner,
and the walk continues into it. -/
def catchStep (f : Env → Node → Env × Node) (env : Env) (c : Node) : Env × Node :=
  match step env c with
  | .ok (env', c') => f env' c'
  | .error (env', c', msg) => f env' (setInnerStr c' (bannerHtml msg))

/-- Sequential processing of the element children of a node by `g`,
threading the ambient state; text nodes are left in place
(`Array.from(element.children)` only lists elements). -/
def processKids (g : Env → Node → Env × Node) (env : Env) : NodeList → Env × NodeList
  | .nil => (env, .nil)
  | .cons (.txt s) tl =>
      let (e, r) := processKids g env tl
      (e, .cons (.txt s) r)
  | .cons (.elt t a st cs) tl =>
      let (e1, c1) := g env (.elt t a st cs)
      let (e2, r) := processKids g e1 tl
      (e2, .cons c1 r)

/-- The recursive tree walk of `htmlLogic`: each element child goes
through the caught resolver chain and is then walked recursively (with
its children as rewritten by the resolvers).  The fuel only bounds the
recursion depth of the model; every claim supplies enough of it. -/
def htmlLogic : Nat → Env → Node → Env × Node
  | 0, env, n => (env, n)
  | _ + 1, env, .txt s => (env, .txt s)
  | fuel + 1, env, .elt t a st cs =>
      let (env', cs') := processKids (catchStep (fun e n => htmlLogic fuel e n)) env cs
      (env', .elt t a st cs')

/-- Argument of the installed `set` mutator: a replacement value or an
updater function of the current value. -/
inductive SetArg where
  | val : JVal → SetArg
  | upd : (JVal → JVal) → SetArg

/-- The value the mutator assigns: the literal value, or the updater
applied to the current dotted-path value, both through the
`JSON.stringify`/`eval` round trip of the source. -/
def newValArg (obj : JVal) (item : String) : SetArg → Except String JVal
  | .val w => .ok (JVal.jsonRound w)
  | .upd f => (JVal.getPathE (splitDots item) obj).map (fun cur => JVal.jsonRound (f cur))

/-- The `getInner` helper captured by `set`: copy the content of the last
load-time snapshot sharing the element's `name`. -/
def getInnerFold (snaps : List Node) (ele : Node) : Node :=
  snaps.foldl
    (fun e snap => if getA snap "name" == getA e "name" then setInnerStr e (innerStr snap) else e)
    ele

/-- The `set(item, value)` mutator installed by the named branch of
`dataAtr`: assign through the dotted path, re-serialize the stored object
onto the `data` attribute, restore the snapshot content, substitute the
`_key_` tokens, and re-run the walker on the element. -/
def setFun (fuel : Nat) (env : Env) (ele : Node) (item : String) (arg : SetArg) :
    Except String (Env × Node) := do
  let nm := (getA ele "name").getD "null"
  let obj₀ := (env.window.lookup nm).getD .undef
  let nv ← newValArg obj₀ item arg
  let obj₁ ← JVal.setPathE (splitDots item) obj₀ nv
  let env₁ : Env := { env with window := assocSet env.window nm obj₁ }
  let ele₁ := setAttr ele "data" (JVal.jsonStringify obj₁)
  let ele₂ := getInnerFold env₁.dataSnapshots ele₁
  let ele₃ := replaceFieldsEle (JVal.fieldsOf obj₁) ele₂
  let (env₂, ele₄) := htmlLogic fuel env₁ ele₃
  pure (env₂, ele₄)

end Walker

namespace Operators

open JVal

/-- Identification of a value's `constructor` for the default branch of
`is`: the source compares the two constructor functions with a recursive
`is`, i.e. by their printed source, which separates the builtin
constructors exactly as these tags do. -/
def consTag : JVal → String
  | .num _ => "Number"
  | .nan => "Number"
  | .bool _ => "Boolean"
  | .str _ => "String"
  | .func _ => "Function"
  | .date _ => "Date"
  | .regex _ => "RegExp"
  | .arr _ => "Array"
  | .obj _ => "Object"
  | .null => "Null"
  | .undef => "Undefined"

/-- Strict equality `===` as used by `is` (only reached with a primitive
or `null` on the left): `NaN` is not equal to itself, values of distinct
types are never strictly equal. -/
def strictEq : JVal → JVal → Bool
  | .undef, .undef => true
  | .null, .null => true
  | .bool a, .bool b => a == b
  | .num a, .num b => a == b
  | .str a, .str b => a == b
  | _, _ => false

mutual

/-- The deep-equality `is` of `operators.js`.  Functions compare by their
source against the string form of the other value; `null` short-circuits
to strict equality inside the object case; dates compare by millisecond
(throwing when the right side has no `getTime`); regular expressions
compare by printed form; arrays and plain objects first compare
constructors and own-key counts, then every key of the left value (a
missing right key reads as `undefined`; reading the constructor of
`undefined` throws).  Iterating the left object's fields in order models
`Object.keys(value1).every` exactly, because JS objects cannot carry
duplicate keys. -/
def is : JVal → JVal → Except String Bool
  | .func s, v2 => (jsToStrE v2).map (fun t => s == t)
  | .undef, v2 => .ok (strictEq .undef v2)
  | .bool a, v2 => .ok (strictEq (.bool a) v2)
  | .num a, v2 => .ok (strictEq (.num a) v2)
  | .nan, _ => .ok false
  | .str a, v2 => .ok (strictEq (.str a) v2)
  | .null, v2 => .ok (strictEq .null v2)
  | .date ms, v2 =>
      match v2 with
      | .null => .ok false
      | .date ms2 => .ok (ms == ms2)
      | .undef => .error "TypeError: getTime of undefined"
      | _ => .error "TypeError: getTime is not a function"
  | .regex s, v2 =>
      match v2 with
      | .null => .ok false
      | _ => (jsToStrE v2).map (fun t => s == t)
  | .arr xs, v2 =>
      match v2 with
      | .null => .ok false
      | .undef => .error "TypeError: cannot read constructor of undefined"
      | .arr ys =>
          if xs.length != ys.length then .ok false
          else isList xs ys
      | _ => .ok false
  | .obj fs, v2 =>
      match v2 with
      | .null => .ok false
      | .undef => .error "TypeError: cannot read constructor of undefined"
      | .obj gs =>
          if fs.length != gs.length then .ok false
          else isFields fs gs
      | _ => .ok false

/-- Pairwise comparison of array elements (the `keys1.every` loop over
index keys), stopping at the first `false`. -/
def isList : JList → JList → Except String Bool
  | .nil, _ => .ok true
  | .cons a atl, .nil => do
      let r ← is a .undef
      if r then isList atl .nil else .ok false
  | .cons a atl, .cons b btl => do
      let r ← is a b
      if r then isList atl btl else .ok false

/-- The `keys1.every (key => is (value1[key], value2[key]))` loop over the
left object's keys, stopping at the first `false`. -/
def isFields : JFields → JFields → Except String Bool
  | .nil, _ => .ok true
  | .cons k v tl, gs => do
      let r ← is v ((gs.lookup k).getD .undef)
      if r then isFields tl gs else .ok false

end

end Operators

deriving instance DecidableEq for JVal, JList, JFields
deriving instance DecidableEq for Node, NodeList
deriving instance DecidableEq for Except

namespace SpecSide

/-- Scanner following the specification text for expression substitution:
a span is every non-nesting triple-brace group, i.e. the match must not
cross a literal closing brace — with no further restriction.  This is the
claimed behaviour, to be compared with the source's `scanBr` (which also
refuses `/`). -/
def scanBrSpec (ev : String → Except String String) : Nat → List Char → Except String (List Char)
  | 0, cs => .ok cs
  | _ + 1, [] => .ok []
  | f + 1, c :: cs =>
      let rest := (c :: cs).drop 3
      let run := rest.takeWhile (fun d => !(d == '}'))
      let r1 := rest.dropWhile (fun d => !(d == '}'))
      if ['{', '{', '{'].isPrefixOf (c :: cs) && !run.isEmpty && ['}', '}', '}'].isPrefixOf r1
      then do
        let rep ← ev ⟨run⟩
        let out ← scanBrSpec ev f (r1.drop 3)
        .ok (rep.data ++ out)
      else do
        let out ← scanBrSpec ev f cs
        .ok (c :: out)

/-- The expression-substitution resolver as the specification describes
it: like `Resolvers.insideAtr` but replacing every non-nesting
triple-brace span. -/
def insideSpec (env : Env) (ele : Node) : Rslt :=
  let s2 := HandyStr.bracesRewrite (Node.innerStr ele)
  let ele1 := Node.setInnerStr ele s2
  let s3 := Node.innerStr ele1
  match scanBrSpec (fun e => (env.evalE e env.window).map JVal.jsToString) (s3.length + 1) s3.data with
  | .error m => .error (env, ele1, m)
  | .ok out => .ok (env, Node.setInnerStr ele1 ⟨out⟩)

end SpecSide

namespace Walker

mutual

/-- No resolver trigger anywhere in this node's subtree (including its own
attributes and tag): on such nodes the walker is the identity. -/
def trigFreeN : Node → Bool
  | .txt _ => true
  | .elt t a st cs =>
      !(guardLoop (.elt t a st cs) || guardData (.elt t a st cs) ||
        guardCode (.elt t a st cs) || guardIf (.elt t a st cs) ||
        guardStyling (.elt t a st cs) || guardInside (.elt t a st cs) ||
        guardTemp (.elt t a st cs) || guardText (.elt t a st cs)) &&
      trigFreeL cs

/-- List version of `trigFreeN`. -/
def trigFreeL : NodeList → Bool
  | .nil => true
  | .cons c tl => trigFreeN c && trigFreeL tl

end

end Walker

namespace JVal

/-- The dotted path reaches its last key through objects only (the normal
shape of a `set` call); under this condition the assignment is a real
field write and can be read back. -/
def pathObjOk : List String → JVal → Bool
  | [], _ => true
  | [_], v =>
      match v with
      | .obj _ => true
      | _ => false
  | k :: rest, v =>
      match v with
      | .obj fs =>
          match fs.lookup k with
          | some sub => pathObjOk rest sub
          | none => false
      | _ => false

end JVal

/-- Element part of a resolver result (dropping the ambient state, whose
evaluator oracle has no decidable equality). -/
def rOut : Rslt → Option Node
  | .ok (_, n) => some n
  | .error _ => none

/-- Stored-name part of a resolver result. -/
def rWin : Rslt → Option (List (String × JVal))
  | .ok (e, _) => some e.window
  | .error _ => none

/-- Failure message of a resolver result. -/
def rErr : Rslt → Option String
  | .error (_, _, m) => some m
  | .ok _ => none

/-- Element carried by a resolver failure. -/
def rErrNode : Rslt → Option Node
  | .error (_, n, _) => some n
  | .ok _ => none

/-- A fixed-table evaluation oracle for the concrete scenarios: an
expression evaluates to its table entry and every other text throws. -/
def evalFix (tbl : List (String × JVal)) : String → List (String × JVal) → Except String JVal :=
  fun s _ =>
    match tbl.lookup s with
    | some v => .ok v
    | none => .error ("eval failure on " ++ s)

/-- An environment with empty storage and registries over a fixed
evaluation table. -/
def envOf (tbl : List (String × JVal)) : Env :=
  ⟨[], evalFix tbl, [], [], []⟩

/-- Names of the eight resolver stages, in the order in which the walker
attempts them. -/
def resolverNames : List String :=
  ["loop", "data", "code", "if", "styling", "inside", "temp", "text"]

/-- The trigger of each named resolver stage. -/
def guardOf : String → Node → Bool
  | "loop" => Walker.guardLoop
  | "data" => Walker.guardData
  | "code" => Walker.guardCode
  | "if" => Walker.guardIf
  | "styling" => Walker.guardStyling
  | "inside" => Walker.guardInside
  | "temp" => Walker.guardTemp
  | "text" => Walker.guardText
  | _ => fun _ => false

/-- The resolver of each named stage. -/
def actionOf : String → Env → Node → Rslt
  | "loop" => Resolvers.loopEle
  | "data" => Resolvers.dataAtr
  | "code" => Resolvers.codeAtr
  | "if" => Resolvers.ifAtr
  | "styling" => Resolvers.styleAtr
  | "inside" => Resolvers.insideAtr
  | "temp" => Resolvers.getTemp
  | "text" => Resolvers.textAtr
  | _ => fun env c => .ok (env, c)

/-- A concrete element whose five value-guarded trigger attributes are
present but empty, used to instantiate the implications of claim C10. -/
def emptyAttrEle : Node :=
  .elt "p" [("loop", ""), ("data", ""), ("if", ""), ("styling", ""), ("text", ""),
    ("code", ""), ("inside", "")] [] (.cons (.txt "x") .nil)

/-- Assembly of a brace-span decomposition of a string: literal texts
alternating with `\x7b\x7b\x7bexpr\x7d\x7d\x7d` spans (each piece carries its text, its
expression and its replacement), followed by a literal tail. -/
def assembleSpans : List ((String × String) × String) → String → String
  | [], tail => tail
  | ((t, e), _) :: ps, tail => t ++ "\x7b\x7b\x7b" ++ e ++ "\x7d\x7d\x7d" ++ assembleSpans ps tail

/-- The residue after every span of the decomposition is replaced by its
carried replacement. -/
def spansResult : List ((String × String) × String) → String → String
  | [], tail => tail
  | ((t, _), r) :: ps, tail => t ++ r ++ spansResult ps tail

/-- Scanner fuel needed for a decomposition: one unit per text character
plus one per span plus the tail. -/
def needFuel : List ((String × String) × String) → String → Nat
  | [], tail => tail.length + 1
  | ((t, _), _) :: ps, tail => t.length + 1 + needFuel ps tail

/-- The environment of the expression-substitution scenarios: `1+2`
evaluates to `3` and `4/2` to `2`. -/
def insideEnv : Env := envOf [("1+2", JVal.num 3), ("4/2", JVal.num 2)]

/-- An `inside` element whose single span contains a division. -/
def insideEleDiv : Node := .elt "p" [("inside", "")] [] (.cons (.txt "_(4/2)_") .nil)

/-- The `inside` element of the specification example. -/
def insideEleEx : Node := .elt "p" [("inside", "")] [] (.cons (.txt "_(1+2)_hello") .nil)

/-- A concrete child whose conditional resolver throws (the oracle has no
entry for `boom`). -/
def failEle : Node := .elt "p" [("if", "boom")] [] (.cons (.txt "x") .nil)

/-- Environment of the failing-resolver scenario. -/
def failEnv : Env := envOf []

/-- The failure message the empty oracle raises on `boom`. -/
def failMsg : String := "eval failure on boom"

namespace Operators

/-- No key occurs twice (JS objects cannot carry duplicate keys; the
reachable inputs of `is` always satisfy this). -/
def keysNodupB : JFields → Bool
  | .nil => true
  | .cons k _ tl => !(tl.keys.contains k) && keysNodupB tl

/-- Every key of the first field list is a key of the second. -/
def keysSub : JFields → JFields → Bool
  | .nil, _ => true
  | .cons k _ tl, gs => (gs.lookup k).isSome && keysSub tl gs

mutual

/-- Specification-side deep equality: the claim's notion of pairs with
identical own-key sets and deep-equal values (dates by millisecond,
regular expressions and functions by source text), with object key order
immaterial and `NaN` never equal to anything. -/
def permEq : JVal → JVal → Bool
  | .undef, .undef => true
  | .null, .null => true
  | .bool a, .bool b => a == b
  | .num a, .num b => a == b
  | .str a, .str b => a == b
  | .func a, .func b => a == b
  | .date a, .date b => a == b
  | .regex a, .regex b => a == b
  | .arr xs, .arr ys => permEqL xs ys
  | .obj fs, .obj gs =>
      keysNodupB fs && keysNodupB gs && keysSub fs gs && keysSub gs fs && permEqF fs gs
  | _, _ => false

/-- Pairwise deep equality of array elements. -/
def permEqL : JList → JList → Bool
  | .nil, .nil => true
  | .cons a atl, .cons b btl => permEq a b && permEqL atl btl
  | _, _ => false

/-- Every field of the first object is deep-equal to the second object's
value at the same key. -/
def permEqF : JFields → JFields → Bool
  | .nil, _ => true
  | .cons k v tl, gs =>
      (match gs.lookup k with
        | some w => permEq v w
        | none => false) && permEqF tl gs

end

mutual

/-- NaN-free plain data with duplicate-free object keys at every level:
the domain on which the claim's reflexivity can hold. -/
def plainData : JVal → Bool
  | .nan => false
  | .arr xs => plainDataL xs
  | .obj fs => keysNodupB fs && plainDataF fs
  | _ => true

/-- List version of `plainData`. -/
def plainDataL : JList → Bool
  | .nil => true
  | .cons v tl => plainData v && plainDataL tl

/-- Field version of `plainData`. -/
def plainDataF : JFields → Bool
  | .nil => true
  | .cons _ v tl => plainData v && plainDataF tl

end

end Operators

/-- First object of the claim C9 witness. -/
def objW1 : JVal := .obj (.cons "x" (.num 1) (.cons "y" (.str "s") .nil))

/-- The same object with its keys in the other order. -/
def objW2 : JVal := .obj (.cons "y" (.str "s") (.cons "x" (.num 1) .nil))

/-- Concatenation of a list of strings. -/
def strConcat : List String → String
  | [] => ""
  | s :: tl => s ++ strConcat tl

mutual

/-- No node of this subtree carries an `item` attribute (so the per-item
pass of a loop iteration touches nothing). -/
def noItemN : Node → Bool
  | .txt _ => true
  | .elt t a st cs => !(Node.presentA (.elt t a st cs) "item") && noItemL cs

/-- List version of `noItemN`. -/
def noItemL : NodeList → Bool
  | .nil => true
  | .cons c tl => noItemN c && noItemL tl

end

/-- One loop copy: the element's inner markup with the `i_<name>` token
replaced by the index and then the `v_<name>` token replaced by the
string form of the indexed item. -/
def loopCopy (nm : String) (arrv : JVal) (s0 : String) (i : Nat) : String :=
  HandyStr.replaceAllStr
    (HandyStr.replaceAllStr s0 ("i_" ++ nm) (toString i))
    ("v_" ++ nm) (JVal.jsToString (JVal.jsIndex arrv i))

/-- The accumulator of the loop of `loopEle` over a fixed inner markup:
append the markup, then run both token replacements over the whole
accumulated string, exactly as the source does. -/
def loopAcc (nm : String) (arrv : JVal) (s0 : String) : String → List Nat → String
  | acc, [] => acc
  | acc, i :: is =>
      loopAcc nm arrv s0
        (HandyStr.replaceAllStr
          (HandyStr.replaceAllStr (acc ++ s0) ("i_" ++ nm) (toString i))
          ("v_" ++ nm) (JVal.jsToString (JVal.jsIndex arrv i))) is

/-- The loop element of the claim C4 witness: two colours, content with
both tokens. -/
def loopEleW : Node :=
  .elt "div" [("loop", "color"), ("in", "['red','blue']")] []
    (.cons (.txt "i_color:v_color;") .nil)

/-- The array the witness's `in` expression evaluates to. -/
def loopArrW : JVal := .arr (.cons (.str "red") (.cons (.str "blue") .nil))

/-- Oracle of the claim C4 witness. -/
def loopEnvW : Env := envOf [(" new Object(['red','blue'])", loopArrW)]

/-- First registered template snapshot named `card` (claim C7). -/
def tempCard1 : Node :=
  .elt "temp.create" [("name", "card")] [] (.cons (.txt "ONE[_children_]") .nil)

/-- Second registered template snapshot, also named `card` (claim C7). -/
def tempCard2 : Node :=
  .elt "temp.create" [("name", "card")] [] (.cons (.txt "TWO[_children_]") .nil)

/-- Environment with two same-named template snapshots (claim C7). -/
def tempEnvC7 : Env :=
  ⟨[], evalFix [(" new Object(null)", .obj .nil)], [], [tempCard1, tempCard2], []⟩

/-- The calling element of the claim C7 scenario. -/
def tempCallC7 : Node := .elt "card." [] [] (.cons (.txt "kid") .nil)

/-- The titled target of the claim C8 card template, with an existing
class. -/
def cardTarget : Node := .elt "h1" [("target", "title"), ("class", "hdr")] [] .nil

/-- The card template of the claim C8 scenario. -/
def cardTemp : Node :=
  .elt "temp.create" [("name", "card")] [] (.cons cardTarget .nil)

/-- Environment registering the card template (claim C8). -/
def cardEnv : Env :=
  ⟨[], evalFix [(" new Object(null)", .obj .nil)], [], [cardTemp], []⟩

/-- The calling element passing `title.class="big"` (claim C8). -/
def cardCall : Node := .elt "card." [("title.class", "big")] [] (.cons (.txt "kid") .nil)

/-- The `count` updater of the claim C2 scenario (`v => v + 1`). -/
def updC2 : JVal → JVal
  | .num n => .num (n + 1)
  | v => v

/-- The stored object of the claim C2 scenario before the mutation. -/
def objC2 : JVal := .obj (.cons "count" (.num 1) .nil)

/-- The stored object of the claim C2 scenario after the mutation. -/
def objC2sub : JVal := .obj (.cons "count" (.num 2) .nil)

/-- The bound element of the claim C2 scenario, content already
substituted by the load-time pass. -/
def eleC2 : Node :=
  .elt "div" [("data", "\x7bcount:1\x7d"), ("name", "n")] [] (.cons (.txt "1") .nil)

/-- The load-time snapshot of the claim C2 element, holding the
unsubstituted `_count_` token. -/
def snapC2 : Node :=
  .elt "div" [("data", "\x7bcount:1\x7d"), ("name", "n")] [] (.cons (.txt "_count_") .nil)

/-- The ambient state of the claim C2 scenario. -/
def envC2 : Env := ⟨[("n", objC2)], evalFix [], [snapC2], [], []⟩

/-- Guard truthiness implies attribute presence. -/
theorem truthyA_presentA {c : Node} {k : String} (h : Node.truthyA c k = true) :
    Node.presentA c k = true := by
  unfold Node.truthyA at h
  unfold Node.presentA
  cases hg : Node.getA c k with
  | none => rw [hg] at h; simp at h
  | some v => simp

/-- C3: the walker attempts the resolvers in exactly the source order
loop, data, inline-code (`code`), conditional (`if`), inline-style
(`styling`), expression-substitution (`inside`), template-expansion
(triggered by the tag name's trailing `.` marker), literal-text (`text`);
and each of the attribute-triggered stages runs only when its triggering
attribute is present (for `code` and `inside`, exactly when present). -/
theorem claim_C3_resolver_order (env : Env) (c : Node) :
    Walker.step env c =
      resolverNames.foldl (fun st nm => Walker.phase (guardOf nm) (actionOf nm) st)
        (.ok (env, c))
    ∧ resolverNames = ["loop", "data", "code", "if", "styling", "inside", "temp", "text"]
    ∧ (Walker.guardLoop c = true → Node.presentA c "loop" = true)
    ∧ (Walker.guardData c = true → Node.presentA c "data" = true)
    ∧ Walker.guardCode c = Node.presentA c "code"
    ∧ (Walker.guardIf c = true → Node.presentA c "if" = true)
    ∧ (Walker.guardStyling c = true → Node.presentA c "styling" = true)
    ∧ Walker.guardInside c = Node.presentA c "inside"
    ∧ Walker.guardTemp c = strEndsWith (Node.tagOf c) "."
    ∧ (Walker.guardText c = true → Node.presentA c "text" = true) := by
  refine ⟨rfl, rfl, ?_, ?_, rfl, ?_, ?_, rfl, rfl, ?_⟩
  all_goals exact truthyA_presentA

/-- Witness for claim C3 at a concrete element carrying only a `loop`
attribute: the fired loop guard certifies attribute presence. -/
theorem claim_C3_witness :
    Node.presentA (.elt "p" [("loop", "x")] [] .nil) "loop" = true :=
  (claim_C3_resolver_order (envOf []) (.elt "p" [("loop", "x")] [] .nil)).2.2.1 (by decide)

/-- C10: an empty-valued trigger attribute skips the loop, data,
conditional, inline-style and literal-text resolvers entirely (their
guards are JS-falsy on the empty string, and a skipped stage leaves the
state and the element unchanged), while the inline-code and
expression-substitution resolvers still run (their guards test presence
through `== ""`). -/
theorem claim_C10_empty_attribute_guards (c : Node) :
    (Node.getA c "loop" = some "" → Walker.guardLoop c = false)
    ∧ (Node.getA c "data" = some "" → Walker.guardData c = false)
    ∧ (Node.getA c "if" = some "" → Walker.guardIf c = false)
    ∧ (Node.getA c "styling" = some "" → Walker.guardStyling c = false)
    ∧ (Node.getA c "text" = some "" → Walker.guardText c = false)
    ∧ (Node.getA c "code" = some "" → Walker.guardCode c = true)
    ∧ (Node.getA c "inside" = some "" → Walker.guardInside c = true)
    ∧ (∀ (g : Node → Bool) (r : Env → Node → Rslt) (env : Env), g c = false →
        Walker.phase g r (.ok (env, c)) = .ok (env, c)) := by
  refine ⟨?_, ?_, ?_, ?_, ?_, ?_, ?_, ?_⟩
  case _ => intro h; simp [Walker.guardLoop, Node.truthyA, h]
  case _ => intro h; simp [Walker.guardData, Node.truthyA, h]
  case _ => intro h; simp [Walker.guardIf, Node.truthyA, h]
  case _ => intro h; simp [Walker.guardStyling, Node.truthyA, h]
  case _ => intro h; simp [Walker.guardText, Node.truthyA, h]
  case _ => intro h; simp [Walker.guardCode, Node.presentA, h]
  case _ => intro h; simp [Walker.guardInside, Node.presentA, h]
  case _ => intro g r env h; simp [Walker.phase, h]

/-- Witness for claim C10 at the concrete element whose seven trigger
attributes are all present and empty: the five value-guarded resolvers
are skipped (guards false, phase is the identity) and the two
presence-guarded ones fire. -/
theorem claim_C10_witness :
    Walker.guardLoop emptyAttrEle = false
    ∧ Walker.guardData emptyAttrEle = false
    ∧ Walker.guardIf emptyAttrEle = false
    ∧ Walker.guardStyling emptyAttrEle = false
    ∧ Walker.guardText emptyAttrEle = false
    ∧ Walker.guardCode emptyAttrEle = true
    ∧ Walker.guardInside emptyAttrEle = true
    ∧ Walker.phase Walker.guardLoop Resolvers.loopEle (.ok (envOf [], emptyAttrEle))
        = .ok (envOf [], emptyAttrEle) :=
  ⟨(claim_C10_empty_attribute_guards emptyAttrEle).1 (by decide),
   (claim_C10_empty_attribute_guards emptyAttrEle).2.1 (by decide),
   (claim_C10_empty_attribute_guards emptyAttrEle).2.2.1 (by decide),
   (claim_C10_empty_attribute_guards emptyAttrEle).2.2.2.1 (by decide),
   (claim_C10_empty_attribute_guards emptyAttrEle).2.2.2.2.1 (by decide),
   (claim_C10_empty_attribute_guards emptyAttrEle).2.2.2.2.2.1 (by decide),
   (claim_C10_empty_attribute_guards emptyAttrEle).2.2.2.2.2.2.1 (by decide),
   (claim_C10_empty_attribute_guards emptyAttrEle).2.2.2.2.2.2.2 Walker.guardLoop
     Resolvers.loopEle (envOf [])
     ((claim_C10_empty_attribute_guards emptyAttrEle).1 (by decide))⟩

/-- A concrete element carrying `code="1+2"` for the claim C6 witness. -/
def codeEle : Node := .elt "p" [("code", "1+2")] [] (.cons (.txt "old") .nil)

/-- Oracle mapping `1+2` to `3` for the claim C6 witness. -/
def envC6 : Env := envOf [("1+2", .num 3)]

/-- C6: the inline-code resolver evaluates the attribute value when it is
non-empty (otherwise the element's current content) and renders the
result: truthy values render as their string form, values loosely equal
to zero (`0`, `false`, `""` under the JS `== 0`) render as `0`, and every
other falsy value (`null`, `undefined`, `NaN`) renders as the empty
string. -/
theorem claim_C6_code_rendering (env : Env) (ele : Node) (a : String) (v : JVal)
    (ha : Node.getA ele "code" = some a)
    (hv : env.evalE (if a != "" then a else Node.innerStr ele) env.window = .ok v) :
    Resolvers.codeAtr env ele = .ok (env, Node.setInnerStr ele (Resolvers.renderCode v))
    ∧ (JVal.truthy v = true → Resolvers.renderCode v = JVal.jsToString v)
    ∧ (JVal.truthy v = false → JVal.looseEqZero v = true → Resolvers.renderCode v = "0")
    ∧ (JVal.truthy v = false → JVal.looseEqZero v = false → Resolvers.renderCode v = "")
    ∧ Resolvers.renderCode (.num 0) = "0"
    ∧ Resolvers.renderCode (.bool false) = "0"
    ∧ Resolvers.renderCode (.str "") = "0"
    ∧ Resolvers.renderCode .null = ""
    ∧ Resolvers.renderCode .undef = ""
    ∧ Resolvers.renderCode .nan = "" := by
  refine ⟨?_, ?_, ?_, ?_, by decide, by decide, by decide, by decide, by decide, by decide⟩
  · simp only [Resolvers.codeAtr, ha, hv]
  · intro h; simp [Resolvers.renderCode, h]
  · intro h1 h2; simp [Resolvers.renderCode, h1, h2]
  · intro h1 h2; simp [Resolvers.renderCode, h1, h2]

/-- Witness for claim C6: with `code="1+2"` and an oracle sending `1+2`
to `3`, the content becomes the string `3`. -/
theorem claim_C6_witness :
    Node.getA codeEle "code" = some "1+2"
    ∧ envC6.evalE (if "1+2" != "" then "1+2" else Node.innerStr codeEle) envC6.window
        = .ok (.num 3)
    ∧ Resolvers.codeAtr envC6 codeEle
        = .ok (envC6, Node.setInnerStr codeEle (Resolvers.renderCode (.num 3)))
    ∧ Node.setInnerStr codeEle (Resolvers.renderCode (.num 3))
        = .elt "p" [("code", "1+2")] [] (.cons (.txt "3") .nil) :=
  ⟨by decide, by decide,
   (claim_C6_code_rendering envC6 codeEle "1+2" (.num 3) (by decide) (by decide)).1,
   by decide⟩

/-- Take-while over a block satisfying the predicate, stopped by the next
character. -/
theorem takeWhile_app_stop {p : Char → Bool} :
    ∀ (a : List Char) (d : Char) (b : List Char),
      (∀ c ∈ a, p c = true) → p d = false →
      (a ++ d :: b).takeWhile p = a := by
  intro a d b ha hd
  induction a with
  | nil => simp [List.takeWhile_cons, hd]
  | cons c tl ih =>
      have hc := ha c (by simp)
      simp only [List.cons_append, List.takeWhile_cons, hc, if_true]
      rw [ih (fun x hx => ha x (by simp [hx]))]

/-- Drop-while over a block satisfying the predicate, stopped by the next
character. -/
theorem dropWhile_app_stop {p : Char → Bool} :
    ∀ (a : List Char) (d : Char) (b : List Char),
      (∀ c ∈ a, p c = true) → p d = false →
      (a ++ d :: b).dropWhile p = d :: b := by
  intro a d b ha hd
  induction a with
  | nil => simp [List.dropWhile_cons, hd]
  | cons c tl ih =>
      have hc := ha c (by simp)
      simp only [List.cons_append, List.dropWhile_cons, hc, if_true]
      exact ih (fun x hx => ha x (by simp [hx]))

/-- The scanner passes over brace-free text unchanged. -/
theorem scanBr_text_step (ev : String → Except String String) :
    ∀ (t : List Char) (fuel : Nat) (rest : List Char),
      (∀ c ∈ t, c ≠ '{') →
      Resolvers.scanBr ev (t.length + fuel) (t ++ rest)
        = (Resolvers.scanBr ev fuel rest).map (fun out => t ++ out) := by
  intro t
  induction t with
  | nil =>
      intro fuel rest _
      simp only [List.length_nil, Nat.zero_add, List.nil_append]
      cases Resolvers.scanBr ev fuel rest <;> simp [Except.map]
  | cons c tl ih =>
      intro fuel rest h
      have hc : ¬ (c = '{') := h c (by simp)
      have hb : ('{' == c) = false := by
        cases hq : ('{' == c)
        · rfl
        · exact absurd (eq_of_beq hq).symm hc
      have hpre : (['{', '{', '{'].isPrefixOf (c :: (tl ++ rest))) = false := by
        simp [List.isPrefixOf, hb]
      simp only [List.cons_append, List.length_cons]
      rw [Nat.add_right_comm]
      rw [Resolvers.scanBr]
      simp only [hpre, Bool.false_and, Bool.false_eq_true, if_false]
      rw [ih fuel rest (fun x hx => h x (by simp [hx]))]
      cases Resolvers.scanBr ev fuel rest <;> rfl

/-- The scanner replaces one well-formed span (non-empty, free of `}` and
`/`) by the evaluation result and continues after it. -/
theorem scanBr_match_step (ev : String → Except String String) (e : List Char) (r : String)
    (rest : List Char) (f : Nat) (he : e ≠ [])
    (hok : ∀ c ∈ e, c ≠ '}' ∧ c ≠ '/') (hev : ev ⟨e⟩ = .ok r) :
    Resolvers.scanBr ev (f + 1) ('{' :: '{' :: '{' :: (e ++ '}' :: '}' :: '}' :: rest))
      = (Resolvers.scanBr ev f rest).map (fun out => r.data ++ out) := by
  have hrun : (e ++ '}' :: '}' :: '}' :: rest).takeWhile (fun d => !(d == '}' || d == '/')) = e :=
    takeWhile_app_stop e '}' ('}' :: '}' :: rest)
      (fun c hcm => by rcases hok c hcm with ⟨h1, h2⟩; simp [h1, h2]) (by simp)
  have hdw : (e ++ '}' :: '}' :: '}' :: rest).dropWhile (fun d => !(d == '}' || d == '/'))
      = '}' :: '}' :: '}' :: rest :=
    dropWhile_app_stop e '}' ('}' :: '}' :: rest)
      (fun c hcm => by rcases hok c hcm with ⟨h1, h2⟩; simp [h1, h2]) (by simp)
  have hne : e.isEmpty = false := by cases e with
    | nil => exact absurd rfl he
    | cons a b => rfl
  rw [Resolvers.scanBr]
  simp only [List.drop_succ_cons, List.drop_zero, hrun, hdw, hne]
  simp [List.isPrefixOf, hev]
  cases Resolvers.scanBr ev f rest <;> rfl

/-- The scanner maps a whole well-formed decomposition (brace-free texts
alternating with well-formed spans) to the evaluated residue, for any
surplus fuel. -/
theorem scanBr_spans (ev : String → Except String String) :
    ∀ (ps : List ((String × String) × String)) (tail : String) (k : Nat),
      (∀ pc ∈ ps,
        (∀ c ∈ (pc.1.1 : String).data, c ≠ '{')
        ∧ (pc.1.2 : String).data ≠ []
        ∧ (∀ c ∈ (pc.1.2 : String).data, c ≠ '}' ∧ c ≠ '/')
        ∧ ev pc.1.2 = .ok pc.2) →
      (∀ c ∈ tail.data, c ≠ '{') →
      Resolvers.scanBr ev (needFuel ps tail + k) (assembleSpans ps tail).data
        = .ok (spansResult ps tail).data := by
  intro ps
  induction ps with
  | nil =>
      intro tail k _ htail
      show Resolvers.scanBr ev (tail.length + 1 + k) tail.data = .ok tail.data
      have h0 := scanBr_text_step ev tail.data (k + 1) [] htail
      rw [List.append_nil] at h0
      have harith : tail.length + 1 + k = tail.data.length + (k + 1) := by
        show tail.data.length + 1 + k = _
        omega
      rw [harith, h0]
      rw [show Resolvers.scanBr ev (k + 1) [] = .ok [] from rfl]
      simp [Except.map]
  | cons pc ps ih =>
      intro tail k hps htail
      obtain ⟨⟨t, e⟩, r⟩ := pc
      obtain ⟨ht, hne, hok, hev⟩ := hps _ (List.mem_cons_self _ _)
      have hih := ih tail k (fun q hq => hps q (List.mem_cons_of_mem _ hq)) htail
      have hdata : (assembleSpans (((t, e), r) :: ps) tail).data
          = t.data ++ ('{' :: '{' :: '{' ::
              (e.data ++ '}' :: '}' :: '}' :: (assembleSpans ps tail).data)) := by
        show (t ++ "\x7b\x7b\x7b" ++ e ++ "\x7d\x7d\x7d" ++ assembleSpans ps tail).data = _
        simp only [String.data_append, List.append_assoc]
        rfl
      have harith : needFuel (((t, e), r) :: ps) tail + k
          = t.data.length + ((needFuel ps tail + k) + 1) := by
        show t.length + 1 + needFuel ps tail + k = _
        show t.data.length + 1 + needFuel ps tail + k = _
        omega
      rw [hdata, harith]
      rw [scanBr_text_step ev t.data ((needFuel ps tail + k) + 1) _ ht]
      rw [scanBr_match_step ev e.data r (assembleSpans ps tail).data
        (needFuel ps tail + k) hne hok hev]
      rw [hih]
      show Except.ok (t.data ++ (r.data ++ (spansResult ps tail).data)) = _
      have : (spansResult (((t, e), r) :: ps) tail).data
          = t.data ++ (r.data ++ (spansResult ps tail).data) := by
        show (t ++ r ++ spansResult ps tail).data = _
        simp [String.data_append]
      rw [this]

/-- The scanner fuel the resolver supplies always covers the
decomposition's needed fuel. -/
theorem needFuel_le : ∀ (ps : List ((String × String) × String)) (tail : String),
    needFuel ps tail ≤ (assembleSpans ps tail).length + 1 := by
  intro ps
  induction ps with
  | nil =>
      intro tail
      show tail.length + 1 ≤ tail.length + 1
      omega
  | cons pc ps ih =>
      intro pstail
      obtain ⟨⟨t, e⟩, r⟩ := pc
      show t.length + 1 + needFuel ps pstail
        ≤ (t ++ "\x7b\x7b\x7b" ++ e ++ "\x7d\x7d\x7d" ++ assembleSpans ps pstail).length + 1
      have hlen : (t ++ "\x7b\x7b\x7b" ++ e ++ "\x7d\x7d\x7d" ++ assembleSpans ps pstail).length
          = t.length + 3 + e.length + 3 + (assembleSpans ps pstail).length := by
        simp only [String.length_append,
          show ("\x7b\x7b\x7b" : String).length = 3 from rfl, show ("\x7d\x7d\x7d" : String).length = 3 from rfl]
      have := ih pstail
      omega

/-- C5 (amended): the expression-substitution resolver rewrites every
`_(` to the triple-brace opener and every `)_` to the triple-brace
closer, then replaces every span of the resulting content whose text is
non-empty and free of both `\x7d` and `/` by the string form of its evaluated
expression; a span containing `/` is not replaced (this is where the
amendment tightens the claim, whose only exclusion was the literal
closing brace). -/
theorem claim_C5_inside_substitution (env : Env) (ele : Node)
    (ps : List ((String × String) × String)) (tail : String)
    (hasm : Node.innerStr (Node.setInnerStr ele (HandyStr.bracesRewrite (Node.innerStr ele)))
      = assembleSpans ps tail)
    (hps : ∀ pc ∈ ps,
      (∀ c ∈ (pc.1.1 : String).data, c ≠ '{')
      ∧ (pc.1.2 : String).data ≠ []
      ∧ (∀ c ∈ (pc.1.2 : String).data, c ≠ '}' ∧ c ≠ '/')
      ∧ ∃ v, env.evalE pc.1.2 env.window = .ok v ∧ pc.2 = JVal.jsToString v)
    (htail : ∀ c ∈ tail.data, c ≠ '{') :
    Resolvers.insideAtr env ele
      = .ok (env, Node.setInnerStr
          (Node.setInnerStr ele (HandyStr.bracesRewrite (Node.innerStr ele)))
          (spansResult ps tail)) := by
  obtain ⟨k, hk⟩ := Nat.exists_eq_add_of_le (needFuel_le ps tail)
  have hscan := scanBr_spans (fun e => (env.evalE e env.window).map JVal.jsToString)
    ps tail k
    (fun pc hpc => by
      obtain ⟨h1, h2, h3, v, hv, hr⟩ := hps pc hpc
      refine ⟨h1, h2, h3, ?_⟩
      show Except.map JVal.jsToString (env.evalE pc.1.2 env.window) = Except.ok pc.2
      rw [hv, hr]
      rfl)
    htail
  simp only [Resolvers.insideAtr, hasm]
  rw [show (assembleSpans ps tail).length + 1 = needFuel ps tail + k from hk, hscan]

/-- Counterexample for claim C5 as stated: on content `_(4/2)_` — one
non-nesting triple-brace span with no literal closing brace inside — the
resolver leaves the span unreplaced (the regex also excludes `/`), while
the claimed behaviour (`SpecSide.insideSpec`, excluding only the closing
brace) substitutes the evaluated `2`. -/
theorem claim_C5_counterexample :
    rOut (Resolvers.insideAtr insideEnv insideEleDiv)
      = some (.elt "p" [("inside", "")] [] (.cons (.txt "\x7b\x7b\x7b4/2\x7d\x7d\x7d") .nil))
    ∧ rOut (SpecSide.insideSpec insideEnv insideEleDiv)
      = some (.elt "p" [("inside", "")] [] (.cons (.txt "2") .nil))
    ∧ rOut (Resolvers.insideAtr insideEnv insideEleDiv)
      ≠ rOut (SpecSide.insideSpec insideEnv insideEleDiv) :=
  ⟨by decide, by decide, by decide⟩

/-- Witness for the amended claim C5: content `_(1+2)_hello` resolves to
`3hello` through the decomposition with the single span `1+2` and tail
`hello`. -/
theorem claim_C5_witness :
    Resolvers.insideAtr insideEnv insideEleEx
      = .ok (insideEnv, Node.setInnerStr
          (Node.setInnerStr insideEleEx (HandyStr.bracesRewrite (Node.innerStr insideEleEx)))
          (spansResult [(("", "1+2"), "3")] "hello"))
    ∧ Node.setInnerStr
        (Node.setInnerStr insideEleEx (HandyStr.bracesRewrite (Node.innerStr insideEleEx)))
        (spansResult [(("", "1+2"), "3")] "hello")
      = .elt "p" [("inside", "")] [] (.cons (.txt "3hello") .nil) :=
  ⟨claim_C5_inside_substitution insideEnv insideEleEx [(("", "1+2"), "3")] "hello"
      (by decide)
      (fun pc hpc => by
        have hpc' : pc = (("", "1+2"), "3") := by
          cases hpc with
          | head => rfl
          | tail _ h => cases h
        subst hpc'
        exact ⟨by decide, by decide, by decide, ⟨.num 3, by decide, by decide⟩⟩)
      (by decide),
   by decide⟩

/-- The walker processes every listed sibling: the output list has one
node per input node. -/
theorem processKids_length (g : Env → Node → Env × Node) :
    ∀ (ns : NodeList) (env₀ : Env),
      (Walker.processKids g env₀ ns).2.length = ns.length
  | .nil, _ => rfl
  | .cons (.txt s) tl, env₀ => by
      simp only [Walker.processKids, NodeList.length]
      rw [processKids_length g tl env₀]
  | .cons (.elt t a st cs) tl, env₀ => by
      simp only [Walker.processKids, NodeList.length]
      rw [processKids_length g tl ((g env₀ (.elt t a st cs)).1)]

/-- C1: a resolver failure on a child is caught per element — the walk
turns into the walk of the same child with its content replaced by the
inline error banner (so the walker still recurses into the failing
element's now-banner children), the banner markup is the styled `div`
wrapper containing the failure's message text, processing of a sibling
list always continues past the failing child with only the threaded
state, and no sibling is dropped. -/
theorem claim_C1_walker_error_containment (fuel : Nat) (env env' : Env) (c c' : Node)
    (msg : String) (h : Walker.step env c = .error (env', c', msg)) :
    Walker.catchStep (fun e n => Walker.htmlLogic fuel e n) env c
      = Walker.htmlLogic fuel env' (Node.setInnerStr c' (Walker.bannerHtml msg))
    ∧ HandyStr.occursStr msg (Walker.bannerHtml msg) = true
    ∧ Walker.bannerHtml msg = "<div style='" ++ Walker.bannerStyleStr ++ "'>" ++ msg ++ "</div>"
    ∧ (∀ (g : Env → Node → Env × Node) (env₀ : Env) (t : String)
         (a st : List (String × String)) (cs tl : NodeList),
        Walker.processKids g env₀ (.cons (.elt t a st cs) tl)
          = (let p := g env₀ (.elt t a st cs)
             let q := Walker.processKids g p.1 tl
             (q.1, .cons p.2 q.2)))
    ∧ (∀ (g : Env → Node → Env × Node) (env₀ : Env) (ns : NodeList),
        (Walker.processKids g env₀ ns).2.length = ns.length) := by
  refine ⟨?_, ?_, rfl, ?_, ?_⟩
  · simp [Walker.catchStep, h]
  · have hsuffix : (msg.data ++ ("</div>" : String).data)
        ∈ (Walker.bannerHtml msg).data.tails := by
      rw [List.mem_tails]
      have hdata : (Walker.bannerHtml msg).data
          = ("<div style='" ++ Walker.bannerStyleStr ++ "'>").data
            ++ (msg.data ++ ("</div>" : String).data) := by
        show ("<div style='" ++ Walker.bannerStyleStr ++ "'>" ++ msg ++ "</div>").data = _
        simp [String.data_append, List.append_assoc]
      rw [hdata]
      exact List.suffix_append _ _
    unfold HandyStr.occursStr
    rw [List.any_eq_true]
    exact ⟨_, hsuffix, List.isPrefixOf_iff_prefix.mpr (List.prefix_append _ _)⟩
  · intro g env₀ t a st cs tl
    rfl
  · intro g env₀ ns
    exact processKids_length g ns env₀

/-- Witness for claim C1: on a child whose `if` expression throws, the
caught walk produces the same element with the banner div (holding the
message) as its only child, and the sibling equations hold at the
concrete list. -/
theorem claim_C1_witness :
    Walker.catchStep (fun e n => Walker.htmlLogic 1 e n) failEnv failEle
      = Walker.htmlLogic 1 failEnv (Node.setInnerStr failEle (Walker.bannerHtml failMsg))
    ∧ HandyStr.occursStr failMsg (Walker.bannerHtml failMsg) = true
    ∧ (Walker.catchStep (fun e n => Walker.htmlLogic 1 e n) failEnv failEle).2
        = .elt "p" [("if", "boom")] []
            (.cons (.elt "div" [("style", Walker.bannerStyleStr)] []
              (.cons (.txt failMsg) .nil)) .nil) :=
  ⟨(claim_C1_walker_error_containment 1 failEnv failEnv failEle failEle failMsg rfl).1,
   (claim_C1_walker_error_containment 1 failEnv failEnv failEle failEle failMsg rfl).2.1,
   by set_option maxRecDepth 4000 in decide⟩

namespace Operators

/-- A successful field lookup means the key is among the keys. -/
theorem lookup_some_mem : ∀ (fs : JFields) (k : String) (v : JVal),
    fs.lookup k = some v → k ∈ fs.keys
  | .nil, _, _ => by intro h; cases h
  | .cons k' v' tl, k, v => by
      intro h
      unfold JFields.lookup at h
      show k ∈ [k'] ++ JFields.keys tl
      split at h
      · next heq => exact List.mem_append.mpr (Or.inl (by simp [eq_of_beq heq]))
      · next hne => exact List.mem_append.mpr (Or.inr (lookup_some_mem tl k v h))

/-- A key among the keys looks up successfully. -/
theorem mem_lookup_isSome : ∀ (fs : JFields) (k : String),
    k ∈ fs.keys → (fs.lookup k).isSome = true
  | .nil, k => by intro h; cases h
  | .cons k' v' tl, k => by
      intro h
      unfold JFields.lookup
      by_cases heq : k' == k
      · simp [heq]
      · have hk : k ∈ JFields.keys tl := by
          rcases List.mem_append.mp h with h1 | h2
          · exfalso
            have : k = k' := by simpa using h1
            exact heq (by simp [this])
          · exact h2
        simp only [heq, if_false, Bool.false_eq_true]
        exact mem_lookup_isSome tl k hk

/-- A successful-or-not lookup certificate yields key membership. -/
theorem lookup_isSome_mem (fs : JFields) (k : String)
    (h : (fs.lookup k).isSome = true) : k ∈ fs.keys := by
  cases hl : fs.lookup k with
  | none => rw [hl] at h; cases h
  | some v => exact lookup_some_mem fs k v hl

/-- The key-subset test certifies key-list inclusion. -/
theorem keysSub_mem : ∀ (fs gs : JFields), keysSub fs gs = true →
    ∀ k ∈ fs.keys, (gs.lookup k).isSome = true
  | .nil, _ => by intro _ k hk; cases hk
  | .cons k' v' tl, gs => by
      intro h k hk
      unfold keysSub at h
      have h1 : (gs.lookup k').isSome = true := ((Bool.and_eq_true _ _).mp h).1
      have h2 : keysSub tl gs = true := ((Bool.and_eq_true _ _).mp h).2
      rcases List.mem_append.mp hk with hkl | hkr
      · have : k = k' := by simpa using hkl
        rw [this]; exact h1
      · exact keysSub_mem tl gs h2 k hkr

/-- The key list has one entry per field. -/
theorem keys_length : ∀ (fs : JFields), fs.keys.length = fs.length
  | .nil => rfl
  | .cons k v tl => by
      show ([k] ++ JFields.keys tl).length = JFields.length tl + 1
      simp [keys_length tl]

/-- The duplicate-free test certifies `Nodup` of the key list. -/
theorem keysNodupB_nodup : ∀ (fs : JFields), keysNodupB fs = true → fs.keys.Nodup
  | .nil => by intro _; exact List.nodup_nil
  | .cons k v tl => by
      intro h
      unfold keysNodupB at h
      have h1 : (tl.keys.contains k) = false := by
        rcases (Bool.and_eq_true _ _).mp h with ⟨hnc, _⟩
        cases hc : tl.keys.contains k
        · rfl
        · rw [hc] at hnc; cases hnc
      have h2 := keysNodupB_nodup tl ((Bool.and_eq_true _ _).mp h).2
      show (k :: JFields.keys tl).Nodup
      refine List.nodup_cons.mpr ⟨?_, h2⟩
      intro hmem
      have : tl.keys.contains k = true := List.elem_eq_true_of_mem hmem
      rw [h1] at this; cases this

/-- Two duplicate-free objects with mutually included key sets have the
same number of fields. -/
theorem keys_mutual_length (fs gs : JFields)
    (hnf : keysNodupB fs = true) (hng : keysNodupB gs = true)
    (hfg : keysSub fs gs = true) (hgf : keysSub gs fs = true) :
    fs.length = gs.length := by
  have hsub1 : fs.keys ⊆ gs.keys := fun k hk =>
    lookup_isSome_mem gs k (keysSub_mem fs gs hfg k hk)
  have hsub2 : gs.keys ⊆ fs.keys := fun k hk =>
    lookup_isSome_mem fs k (keysSub_mem gs fs hgf k hk)
  have h1 := List.Subperm.length_le (List.subperm_of_subset (keysNodupB_nodup fs hnf) hsub1)
  have h2 := List.Subperm.length_le (List.subperm_of_subset (keysNodupB_nodup gs hng) hsub2)
  have := keys_length fs
  have := keys_length gs
  omega

end Operators

namespace Operators

/-- Pairwise-equal arrays have equal lengths. -/
theorem permEqL_length : ∀ (xs ys : JList), permEqL xs ys = true → xs.length = ys.length
  | .nil, .nil, _ => rfl
  | .nil, .cons _ _, h => by simp [permEqL] at h
  | .cons _ _, .nil, h => by simp [permEqL] at h
  | .cons a atl, .cons b btl, h => by
      have h2 : permEqL atl btl = true := ((Bool.and_eq_true _ _).mp (by simpa [permEqL] using h)).2
      have := permEqL_length atl btl h2
      simp [JList.length, this]

mutual

/-- Deep-equal pairs (up to object key order) compare `true` under the
source's `is`. -/
theorem permEq_is : ∀ (a b : JVal), permEq a b = true → is a b = .ok true
  | .undef, b, h => by cases b <;> simp_all [permEq, is, strictEq]
  | .null, b, h => by cases b <;> simp_all [permEq, is, strictEq]
  | .bool x, b, h => by cases b <;> simp_all [permEq, is, strictEq]
  | .num x, b, h => by cases b <;> simp_all [permEq, is, strictEq]
  | .nan, b, h => by cases b <;> simp_all [permEq]
  | .str x, b, h => by cases b <;> simp_all [permEq, is, strictEq]
  | .func x, b, h => by
      cases b <;> simp_all [permEq, is, JVal.jsToStrE, JVal.jsToString, Except.map]
  | .date x, b, h => by cases b <;> simp_all [permEq, is]
  | .regex x, b, h => by
      cases b <;> simp_all [permEq, is, JVal.jsToStrE, JVal.jsToString, Except.map]
  | .arr xs, b, h => by
      cases b with
      | arr ys =>
          have hp : permEqL xs ys = true := by simpa [permEq] using h
          have hlen : xs.length = ys.length := permEqL_length xs ys hp
          have hl : isList xs ys = .ok true := permEqL_is xs ys hp
          simp [is, hlen, hl]
      | _ => simp_all [permEq]
  | .obj fs, b, h => by
      cases b with
      | obj gs =>
          have h' : (keysNodupB fs && keysNodupB gs && keysSub fs gs && keysSub gs fs
              && permEqF fs gs) = true := by simpa [permEq] using h
          obtain ⟨h1234, h5⟩ := (Bool.and_eq_true _ _).mp h'
          obtain ⟨h123, h4⟩ := (Bool.and_eq_true _ _).mp h1234
          obtain ⟨h12, h3⟩ := (Bool.and_eq_true _ _).mp h123
          obtain ⟨h1, h2⟩ := (Bool.and_eq_true _ _).mp h12
          have hlen : fs.length = gs.length := keys_mutual_length fs gs h1 h2 h3 h4
          have hf : isFields fs gs = .ok true := permEqF_is fs gs h5
          simp [is, hlen, hf]
      | _ => simp_all [permEq]

/-- List part of `permEq_is`. -/
theorem permEqL_is : ∀ (xs ys : JList), permEqL xs ys = true → isList xs ys = .ok true
  | .nil, ys, _ => by cases ys <;> rfl
  | .cons a atl, .nil, h => by simp [permEqL] at h
  | .cons a atl, .cons b btl, h => by
      obtain ⟨h1, h2⟩ := (Bool.and_eq_true _ _).mp (by simpa [permEqL] using h)
      have ha := permEq_is a b h1
      have htl := permEqL_is atl btl h2
      simp only [isList, ha, htl]
      rfl

/-- Field part of `permEq_is`. -/
theorem permEqF_is : ∀ (fs gs : JFields), permEqF fs gs = true → isFields fs gs = .ok true
  | .nil, gs, _ => rfl
  | .cons k v tl, gs, h => by
      obtain ⟨h1, h2⟩ := (Bool.and_eq_true _ _).mp (by simpa [permEqF] using h)
      cases hl : gs.lookup k with
      | none => rw [hl] at h1; simp at h1
      | some w =>
          rw [hl] at h1
          have hv := permEq_is v w h1
          have htl := permEqF_is tl gs h2
          simp only [isFields, hl, Option.getD_some, hv, htl]
          rfl

end

end Operators

namespace Operators

/-- A field of an object contributes its key to the key list. -/
theorem toList_mem_keys : ∀ (fs : JFields) (k : String) (v : JVal),
    (k, v) ∈ fs.toList → k ∈ fs.keys
  | .nil, _, _ => by intro h; cases h
  | .cons k' v' tl, k, v => by
      intro h
      rcases List.mem_append.mp h with h1 | h2
      · have h1' : k = k' ∧ v = v' := by simpa using h1
        simp [JFields.keys, h1'.1]
      · exact List.mem_append.mpr (Or.inr (toList_mem_keys tl k v h2))

/-- In a duplicate-free object, every field is what its key looks up. -/
theorem nodup_fields_lookup : ∀ (fs : JFields), keysNodupB fs = true →
    ∀ k v, (k, v) ∈ fs.toList → fs.lookup k = some v
  | .nil, _, k, v => by intro h; cases h
  | .cons k' v' tl, h, k, v => by
      intro hm
      have hpair : k' ∉ tl.keys ∧ keysNodupB tl = true := by simpa [keysNodupB] using h
      rcases List.mem_append.mp hm with h1 | h2
      · obtain ⟨rfl, rfl⟩ : k = k' ∧ v = v' := by simpa using h1
        simp [JFields.lookup]
      · have hkm : k ∈ tl.keys := toList_mem_keys tl k v h2
        have hne : (k' == k) = false := by
          cases hq : (k' == k)
          · rfl
          · exfalso
            have hk : k' = k := eq_of_beq hq
            subst hk
            exact hpair.1 hkm
        unfold JFields.lookup
        simp only [hne, Bool.false_eq_true, if_false]
        exact nodup_fields_lookup tl hpair.2 k v h2

/-- Build the key-subset certificate from pointwise lookup success. -/
theorem keysSub_intro : ∀ (fs gs : JFields),
    (∀ k ∈ fs.keys, (gs.lookup k).isSome = true) → keysSub fs gs = true
  | .nil, _, _ => rfl
  | .cons k v tl, gs, h => by
      unfold keysSub
      have h1 := h k (by simp [JFields.keys])
      have h2 := keysSub_intro tl gs (fun k' hk' => h k' (List.mem_append.mpr (Or.inr hk')))
      simp [h1, h2]

/-- Build the per-field certificate from pointwise facts. -/
theorem permEqF_intro : ∀ (fs gs : JFields),
    (∀ k v, (k, v) ∈ fs.toList →
      (match gs.lookup k with | some w => permEq v w | none => false) = true) →
    permEqF fs gs = true
  | .nil, _, _ => rfl
  | .cons k v tl, gs, h => by
      unfold permEqF
      have h1 := h k v (by simp [JFields.toList])
      have h2 := permEqF_intro tl gs (fun k' v' hm => h k' v' (List.mem_append.mpr (Or.inr hm)))
      simp [h1, h2]

/-- Read the per-field certificate back through a lookup. -/
theorem permEqF_lookup : ∀ (fs gs : JFields), permEqF fs gs = true →
    ∀ k v, fs.lookup k = some v →
    (match gs.lookup k with | some w => permEq v w | none => false) = true
  | .nil, _, _, k, v => by intro h; cases h
  | .cons k' v' tl, gs, h, k, v => by
      intro hl
      obtain ⟨h1, h2⟩ := (Bool.and_eq_true _ _).mp (by simpa [permEqF] using h)
      unfold JFields.lookup at hl
      split at hl
      · next heq =>
          cases hl
          have : k' = k := eq_of_beq heq
          subst this
          exact h1
      · next hne => exact permEqF_lookup tl gs h2 k v hl

end Operators

namespace Operators

/-- Sizes are positive. -/
theorem jsize_pos : ∀ (a : JVal), 1 ≤ JVal.jsize a := by
  intro a; cases a <;> simp [JVal.jsize]

/-- List sizes are positive. -/
theorem jsizeL_pos : ∀ (xs : JList), 1 ≤ JVal.jsizeL xs := by
  intro xs; cases xs <;> simp [JVal.jsizeL]

/-- A looked-up field value is smaller than the field list. -/
theorem jsize_lookup_lt : ∀ (fs : JFields) (k : String) (v : JVal),
    fs.lookup k = some v → JVal.jsize v < JVal.jsizeF fs
  | .nil, _, _ => by intro h; cases h
  | .cons k' v' tl, k, v => by
      intro h
      unfold JFields.lookup at h
      split at h
      · next heq =>
          cases h
          simp [JVal.jsizeF]
          omega
      · next hne =>
          have := jsize_lookup_lt tl k v h
          simp [JVal.jsizeF]
          omega

mutual

/-- NaN-free plain data is deep-equal to itself. -/
theorem plain_permEq_refl : ∀ (a : JVal), plainData a = true → permEq a a = true
  | .undef, _ => rfl
  | .null, _ => rfl
  | .bool x, _ => by simp [permEq]
  | .num x, _ => by simp [permEq]
  | .nan, h => by simp [plainData] at h
  | .str x, _ => by simp [permEq]
  | .func x, _ => by simp [permEq]
  | .date x, _ => by simp [permEq]
  | .regex x, _ => by simp [permEq]
  | .arr xs, h => by
      have := plain_permEqL_refl xs (by simpa [plainData] using h)
      simpa [permEq] using this
  | .obj fs, h => by
      have hp : keysNodupB fs = true ∧ plainDataF fs = true := by simpa [plainData] using h
      have hsub : keysSub fs fs = true :=
        keysSub_intro fs fs (fun k hk => mem_lookup_isSome fs k hk)
      have hf : permEqF fs fs = true :=
        plain_permEqF_refl fs fs hp.2 (nodup_fields_lookup fs hp.1)
      simp [permEq, hp.1, hsub, hf]

/-- List part of reflexivity. -/
theorem plain_permEqL_refl : ∀ (xs : JList), plainDataL xs = true → permEqL xs xs = true
  | .nil, _ => rfl
  | .cons v tl, h => by
      have hp : plainData v = true ∧ plainDataL tl = true := by simpa [plainDataL] using h
      simp [permEqL, plain_permEq_refl v hp.1, plain_permEqL_refl tl hp.2]

/-- Field part of reflexivity, against any object that looks every field
up to itself. -/
theorem plain_permEqF_refl : ∀ (fs gs : JFields), plainDataF fs = true →
    (∀ k v, (k, v) ∈ fs.toList → gs.lookup k = some v) →
    permEqF fs gs = true
  | .nil, _, _, _ => rfl
  | .cons k v tl, gs, h, hl => by
      have hp : plainData v = true ∧ plainDataF tl = true := by simpa [plainDataF] using h
      have h1 := hl k v (by simp [JFields.toList])
      have hv := plain_permEq_refl v hp.1
      have htl := plain_permEqF_refl tl gs hp.2
        (fun k' v' hm => hl k' v' (List.mem_append.mpr (Or.inr hm)))
      simp [permEqF, h1, hv, htl]

end

end Operators

namespace Operators

/-- Deep equality is symmetric (strong induction on the left size). -/
theorem permEq_symm_strong : ∀ (n : Nat),
    (∀ (a b : JVal), JVal.jsize a ≤ n → permEq a b = true → permEq b a = true)
    ∧ (∀ (xs ys : JList), JVal.jsizeL xs ≤ n → permEqL xs ys = true → permEqL ys xs = true) := by
  intro n
  induction n with
  | zero =>
      constructor
      · intro a b ha _
        exact absurd (jsize_pos a) (by omega)
      · intro xs ys ha _
        exact absurd (jsizeL_pos xs) (by omega)
  | succ n ih =>
      obtain ⟨ihV, ihL⟩ := ih
      constructor
      · intro a b hs h
        cases a with
        | undef => cases b <;> simp_all [permEq]
        | null => cases b <;> simp_all [permEq]
        | bool x => cases b <;> simp_all [permEq]
        | num x => cases b <;> simp_all [permEq]
        | nan => cases b <;> simp_all [permEq]
        | str x => cases b <;> simp_all [permEq]
        | func x => cases b <;> simp_all [permEq]
        | date x => cases b <;> simp_all [permEq]
        | regex x => cases b <;> simp_all [permEq]
        | arr xs =>
            cases b with
            | arr ys =>
                have hxs : JVal.jsizeL xs ≤ n := by
                  have : JVal.jsize (.arr xs) ≤ n + 1 := hs
                  simp [JVal.jsize] at this
                  omega
                have hp : permEqL xs ys = true := by simpa [permEq] using h
                have := ihL xs ys hxs hp
                simpa [permEq] using this
            | undef => simp_all [permEq]
            | null => simp_all [permEq]
            | bool y => simp_all [permEq]
            | num y => simp_all [permEq]
            | nan => simp_all [permEq]
            | str y => simp_all [permEq]
            | func y => simp_all [permEq]
            | date y => simp_all [permEq]
            | regex y => simp_all [permEq]
            | obj gs => simp_all [permEq]
        | obj fs =>
            cases b with
            | obj gs =>
                have h' : (keysNodupB fs && keysNodupB gs && keysSub fs gs && keysSub gs fs
                    && permEqF fs gs) = true := by simpa [permEq] using h
                obtain ⟨h1234, h5⟩ := (Bool.and_eq_true _ _).mp h'
                obtain ⟨h123, h4⟩ := (Bool.and_eq_true _ _).mp h1234
                obtain ⟨h12, h3⟩ := (Bool.and_eq_true _ _).mp h123
                obtain ⟨h1, h2⟩ := (Bool.and_eq_true _ _).mp h12
                have hf : permEqF gs fs = true := by
                  apply permEqF_intro
                  intro k w hm
                  have hglk : gs.lookup k = some w := nodup_fields_lookup gs h2 k w hm
                  have hksome : (fs.lookup k).isSome = true :=
                    keysSub_mem gs fs h4 k (toList_mem_keys gs k w hm)
                  obtain ⟨v, hv⟩ := Option.isSome_iff_exists.mp hksome
                  have hmatch := permEqF_lookup fs gs h5 k v hv
                  rw [hglk] at hmatch
                  have hsz : JVal.jsize v ≤ n := by
                    have hlt := jsize_lookup_lt fs k v hv
                    have hob : JVal.jsize (.obj fs) ≤ n + 1 := hs
                    simp [JVal.jsize] at hob
                    omega
                  have hsymm := ihV v w hsz hmatch
                  rw [hv]
                  exact hsymm
                show permEq (.obj gs) (.obj fs) = true
                simp [permEq, h1, h2, h3, h4, hf]
            | undef => simp_all [permEq]
            | null => simp_all [permEq]
            | bool y => simp_all [permEq]
            | num y => simp_all [permEq]
            | nan => simp_all [permEq]
            | str y => simp_all [permEq]
            | func y => simp_all [permEq]
            | date y => simp_all [permEq]
            | regex y => simp_all [permEq]
            | arr ys => simp_all [permEq]
      · intro xs ys hsL h
        cases xs with
        | nil =>
            cases ys with
            | nil => rfl
            | cons b btl => simp_all [permEqL]
        | cons a atl =>
            cases ys with
            | nil => simp_all [permEqL]
            | cons b btl =>
                obtain ⟨h1, h2⟩ := (Bool.and_eq_true _ _).mp (by simpa [permEqL] using h)
                have hsa : JVal.jsize a ≤ n := by
                  have hp := jsizeL_pos atl
                  have : JVal.jsizeL (.cons a atl) ≤ n + 1 := hsL
                  simp [JVal.jsizeL] at this
                  omega
                have hstl : JVal.jsizeL atl ≤ n := by
                  have hp := jsize_pos a
                  have : JVal.jsizeL (.cons a atl) ≤ n + 1 := hsL
                  simp [JVal.jsizeL] at this
                  omega
                simp [permEqL, ihV a b hsa h1, ihL atl btl hstl h2]

/-- Deep equality is symmetric. -/
theorem permEq_symm (a b : JVal) (h : permEq a b = true) : permEq b a = true :=
  (permEq_symm_strong (JVal.jsize a)).1 a b (Nat.le_refl _) h

end Operators

/-- C9 (amended): the deep-equality `is` returns true on every pair that
is deep-equal in the claim's sense — identical own-key sets (up to
order, duplicate-free) with deep-equal values, nested dates by
millisecond, regular expressions and functions by source text
(`Operators.permEq`); it is reflexive over NaN-free plain data
(`is(NaN, NaN)` is false) and symmetric on deep-equal pairs; on
same-class leaf values it decides exactly value equality, so differing
leaves compare false.  The unrestricted direction of the original claim
— false on every differing pair, symmetry everywhere — fails (see the
counterexample). -/
theorem claim_C9_is_deep_equality (a b : JVal) :
    (Operators.permEq a b = true → Operators.is a b = .ok true)
    ∧ (Operators.plainData a = true → Operators.permEq a a = true)
    ∧ (Operators.plainData a = true → Operators.is a a = .ok true)
    ∧ (Operators.permEq a b = true → Operators.is a b = Operators.is b a)
    ∧ (∀ x y : Bool, Operators.is (.bool x) (.bool y) = .ok (x == y))
    ∧ (∀ x y : Int, Operators.is (.num x) (.num y) = .ok (x == y))
    ∧ (∀ x y : String, Operators.is (.str x) (.str y) = .ok (x == y))
    ∧ (∀ x y : String, Operators.is (.func x) (.func y) = .ok (x == y))
    ∧ (∀ x y : Int, Operators.is (.date x) (.date y) = .ok (x == y))
    ∧ (∀ x y : String, Operators.is (.regex x) (.regex y) = .ok (x == y))
    ∧ Operators.is .nan .nan = .ok false :=
  ⟨fun h => Operators.permEq_is a b h,
   fun h => Operators.plain_permEq_refl a h,
   fun h => Operators.permEq_is a a (Operators.plain_permEq_refl a h),
   fun h => by
     rw [Operators.permEq_is a b h, Operators.permEq_is b a (Operators.permEq_symm a b h)],
   fun _ _ => rfl, fun _ _ => rfl, fun _ _ => rfl, fun _ _ => rfl, fun _ _ => rfl,
   fun _ _ => rfl, rfl⟩

/-- Counterexample for claim C9 as stated: two plain objects with
different own-key sets — `{a: undefined}` and `{b: undefined}` — are a
differing case, yet `is` returns true for them (the `every` loop indexes
the second object by the first's keys, and the missing key reads as
`undefined`); moreover symmetry fails between a function and the string
equal to its source. -/
theorem claim_C9_counterexample :
    Operators.is (.obj (.cons "a" .undef .nil)) (.obj (.cons "b" .undef .nil)) = .ok true
    ∧ JFields.keys (.cons "a" .undef .nil) ≠ JFields.keys (.cons "b" .undef .nil)
    ∧ Operators.is (.func "()=>1") (.str "()=>1") = .ok true
    ∧ Operators.is (.str "()=>1") (.func "()=>1") = .ok false :=
  ⟨by decide, by decide, by decide, by decide⟩

/-- Witness for the amended claim C9 at two concrete objects that differ
only in key order: they are deep-equal, `is` confirms it in both
directions, and reflexivity holds at the first. -/
theorem claim_C9_witness :
    Operators.permEq objW1 objW2 = true
    ∧ Operators.is objW1 objW2 = .ok true
    ∧ Operators.is objW1 objW2 = Operators.is objW2 objW1
    ∧ Operators.plainData objW1 = true
    ∧ Operators.is objW1 objW1 = .ok true :=
  ⟨by decide,
   (claim_C9_is_deep_equality objW1 objW2).1 (by decide),
   (claim_C9_is_deep_equality objW1 objW2).2.2.2.1 (by decide),
   by decide,
   (claim_C9_is_deep_equality objW1 objW2).2.2.1 (by decide)⟩

mutual

/-- The per-item pass leaves an item-free node unchanged. -/
theorem mapDescE_noItem (f : Node → Except String Node) :
    ∀ (n : Node), noItemN n = true →
      Node.mapDescE (fun c => Node.presentA c "item") f n = .ok n
  | .txt s, _ => rfl
  | .elt t a st cs, h => by
      have h' : Node.presentA (.elt t a st cs) "item" = false ∧ noItemL cs = true := by
        simpa only [noItemN, Bool.and_eq_true, Bool.not_eq_true'] using h
      unfold Node.mapDescE
      rw [mapDescEL_noItem f cs h'.2]
      rfl

/-- The per-item pass leaves an item-free sibling list unchanged. -/
theorem mapDescEL_noItem (f : Node → Except String Node) :
    ∀ (ns : NodeList), noItemL ns = true →
      Node.mapDescEL (fun c => Node.presentA c "item") f ns = .ok ns
  | .nil, _ => rfl
  | .cons c tl, h => by
      obtain ⟨hc, htl⟩ := (Bool.and_eq_true _ _).mp (by simpa [noItemL] using h)
      have hp : Node.presentA c "item" = false := by
        cases c with
        | txt s => rfl
        | elt t a st cs =>
            have h' : Node.presentA (.elt t a st cs) "item" = false ∧ noItemL cs = true := by
              simpa only [noItemN, Bool.and_eq_true, Bool.not_eq_true'] using hc
            exact h'.1
      unfold Node.mapDescEL
      rw [hp]
      simp only [Bool.false_eq_true, if_false]
      rw [mapDescE_noItem f c hc, mapDescEL_noItem f tl htl]
      rfl

end

/-- With no item descendants the loop iteration never rewrites the
element, and the accumulator is exactly `loopAcc` over the element's
fixed inner markup. -/
theorem loopSteps_noItem (nm : String) (arrv : JVal) :
    ∀ (idx : List Nat) (t : String) (a st : List (String × String)) (cs : NodeList)
      (res : String), noItemL cs = true →
      Resolvers.loopSteps nm arrv idx (.elt t a st cs) res
        = .ok (.elt t a st cs, loopAcc nm arrv (Node.serializeL cs) res idx)
  | [], _, _, _, _, _, _ => rfl
  | i :: is, t, a, st, cs, res, h => by
      have hm : Node.mapDescE (fun c => Node.presentA c "item")
          (Resolvers.itemUpd arrv i nm) (.elt t a st cs) = .ok (.elt t a st cs) := by
        unfold Node.mapDescE
        rw [mapDescEL_noItem _ cs h]
        rfl
      unfold Resolvers.loopSteps
      rw [hm]
      show Resolvers.loopSteps nm arrv is (.elt t a st cs) _ = _
      rw [loopSteps_noItem nm arrv is t a st cs _ h]
      rfl

/-- The loop accumulator splits over an index-list append. -/
theorem loopAcc_append (nm : String) (arrv : JVal) (s0 : String) :
    ∀ (l1 l2 : List Nat) (acc : String),
      loopAcc nm arrv s0 acc (l1 ++ l2) = loopAcc nm arrv s0 (loopAcc nm arrv s0 acc l1) l2
  | [], _, _ => rfl
  | i :: is, l2, acc => by
      show loopAcc nm arrv s0 _ (is ++ l2) = _
      rw [loopAcc_append nm arrv s0 is l2 _]
      rfl

/-- Concatenation splits over append. -/
theorem strConcat_append : ∀ (l1 l2 : List String),
    strConcat (l1 ++ l2) = strConcat l1 ++ strConcat l2
  | [], l2 => by
      show strConcat l2 = "" ++ strConcat l2
      have : "" ++ strConcat l2 = strConcat l2 := by
        apply String.ext
        simp [String.data_append]
      rw [this]
  | s :: tl, l2 => by
      show s ++ strConcat (tl ++ l2) = (s ++ strConcat tl) ++ strConcat l2
      rw [strConcat_append tl l2]
      apply String.ext
      simp [String.data_append]

/-- When no token occurrence straddles a copy boundary (the split
hypotheses), the accumulated loop result is exactly the concatenation of
the per-index copies, in ascending index order. -/
theorem loopAcc_join_range (nm : String) (arrv : JVal) (s0 : String) :
    ∀ (n : Nat),
      (∀ j, j < n →
        HandyStr.replaceAllStr (loopAcc nm arrv s0 "" (List.range j) ++ s0)
            ("i_" ++ nm) (toString j)
          = loopAcc nm arrv s0 "" (List.range j)
            ++ HandyStr.replaceAllStr s0 ("i_" ++ nm) (toString j)
        ∧ HandyStr.replaceAllStr
            (loopAcc nm arrv s0 "" (List.range j)
              ++ HandyStr.replaceAllStr s0 ("i_" ++ nm) (toString j))
            ("v_" ++ nm) (JVal.jsToString (JVal.jsIndex arrv j))
          = loopAcc nm arrv s0 "" (List.range j) ++ loopCopy nm arrv s0 j) →
      loopAcc nm arrv s0 "" (List.range n)
        = strConcat ((List.range n).map (loopCopy nm arrv s0)) := by
  intro n
  induction n with
  | zero => intro _; rfl
  | succ n ih =>
      intro h
      have hn := h n (by omega)
      have hprev := ih (fun j hj => h j (by omega))
      rw [List.range_succ, loopAcc_append, List.map_append, strConcat_append]
      show HandyStr.replaceAllStr
          (HandyStr.replaceAllStr (loopAcc nm arrv s0 "" (List.range n) ++ s0)
            ("i_" ++ nm) (toString n))
          ("v_" ++ nm) (JVal.jsToString (JVal.jsIndex arrv n)) = _
      rw [hn.1, hn.2, hprev]
      show _ = strConcat (List.map (loopCopy nm arrv s0) (List.range n))
        ++ (loopCopy nm arrv s0 n ++ "")
      apply String.ext
      simp [String.data_append]

/-- C4: on a loop element whose `in` expression evaluates to an array of
length `n` and whose content has no `[item]` descendants, the loop runs
over the indices `0` to `n-1` in ascending order (`List.range n`,
exclusive upper bound) and replaces the content with the concatenation
of one copy of the inner markup per index — each copy with the
`i_<name>` token replaced by the index and then the `v_<name>` token by
the string form of the indexed item (`loopCopy`); the array is also
stored process-wide under the loop name.  The split hypotheses say that
no token occurrence straddles a copy boundary, which holds for every
non-pathological template. -/
theorem claim_C4_loop_expansion (env : Env) (t : String) (a st : List (String × String))
    (cs : NodeList) (nm inE : String) (xs : JList)
    (hnm : Node.getA (.elt t a st cs) "loop" = some nm)
    (hin : Node.getA (.elt t a st cs) "in" = some inE)
    (hev : env.evalE (" new Object(" ++ inE ++ ")") env.window = .ok (.arr xs))
    (hitem : noItemL cs = true)
    (hsplit : ∀ j, j < xs.length →
      HandyStr.replaceAllStr
          (loopAcc nm (.arr xs) (Node.serializeL cs) "" (List.range j) ++ Node.serializeL cs)
          ("i_" ++ nm) (toString j)
        = loopAcc nm (.arr xs) (Node.serializeL cs) "" (List.range j)
          ++ HandyStr.replaceAllStr (Node.serializeL cs) ("i_" ++ nm) (toString j)
      ∧ HandyStr.replaceAllStr
          (loopAcc nm (.arr xs) (Node.serializeL cs) "" (List.range j)
            ++ HandyStr.replaceAllStr (Node.serializeL cs) ("i_" ++ nm) (toString j))
          ("v_" ++ nm) (JVal.jsToString (JVal.jsIndex (.arr xs) j))
        = loopAcc nm (.arr xs) (Node.serializeL cs) "" (List.range j)
          ++ loopCopy nm (.arr xs) (Node.serializeL cs) j) :
    Resolvers.loopEle env (.elt t a st cs)
      = .ok ({ env with window := assocSet env.window nm (.arr xs) },
          Node.setInnerStr (.elt t a st cs)
            (strConcat ((List.range xs.length).map
              (loopCopy nm (.arr xs) (Node.serializeL cs)))))
    ∧ (∀ i : Nat, i ∈ List.range xs.length ↔ i < xs.length)
    ∧ ((List.range xs.length).map (loopCopy nm (.arr xs) (Node.serializeL cs))).length
        = xs.length := by
  refine ⟨?_, fun i => List.mem_range, by simp⟩
  unfold Resolvers.loopEle
  rw [hnm, hin]
  simp only [Option.getD_some]
  rw [hev]
  show (match Resolvers.loopSteps nm (.arr xs) (List.range (JVal.jsLen (.arr xs)))
      (.elt t a st cs) "" with
    | .error (ele1, m) =>
        Except.error ({ env with window := assocSet env.window nm (.arr xs) }, ele1, m)
    | .ok (ele1, res) =>
        Except.ok ({ env with window := assocSet env.window nm (.arr xs) },
          Node.setInnerStr ele1 res)) = _
  rw [show JVal.jsLen (.arr xs) = xs.length from rfl]
  rw [loopSteps_noItem nm (.arr xs) (List.range xs.length) t a st cs "" hitem]
  rw [loopAcc_join_range nm (.arr xs) (Node.serializeL cs) xs.length hsplit]

/-- Witness for claim C4 at the specification's example: looping `color`
over `['red','blue']` with content `i_color:v_color;` yields exactly the
two copies `0:red;` and `1:blue;` concatenated, and stores the array
under `color`. -/
theorem claim_C4_witness :
    Resolvers.loopEle loopEnvW loopEleW
      = .ok ({ loopEnvW with window := assocSet loopEnvW.window "color" loopArrW },
          Node.setInnerStr loopEleW
            (strConcat ((List.range (JList.length
              (JList.cons (.str "red") (JList.cons (.str "blue") JList.nil)))).map
              (loopCopy "color" loopArrW
                (Node.serializeL (.cons (.txt "i_color:v_color;") .nil))))))
    ∧ (List.range 2).map (loopCopy "color" loopArrW "i_color:v_color;")
        = ["0:red;", "1:blue;"]
    ∧ strConcat ((List.range 2).map (loopCopy "color" loopArrW "i_color:v_color;"))
        = "0:red;1:blue;"
    ∧ Node.setInnerStr loopEleW "0:red;1:blue;"
        = .elt "div" [("loop", "color"), ("in", "['red','blue']")] []
            (.cons (.txt "0:red;1:blue;") .nil) :=
  ⟨(claim_C4_loop_expansion loopEnvW "div" [("loop", "color"), ("in", "['red','blue']")] []
      (.cons (.txt "i_color:v_color;") .nil) "color" "['red','blue']"
      (.cons (.str "red") (.cons (.str "blue") .nil))
      (by decide) (by decide) (by decide) (by decide) (by decide)).1,
   by decide, by decide, by decide⟩

/-- The guarded template fold equals the unguarded expansion fold over the
name-filtered registry. -/
theorem getTempFold_filter (nm : String) (temps : List Node) (st : Rslt) :
    temps.foldl
      (fun st temp =>
        match st with
        | .error e => .error e
        | .ok (env', ele') =>
            if Node.getA temp "name" == some nm then Resolvers.expandOne env' ele' temp
            else .ok (env', ele'))
      st
    = (temps.filter (fun tp => Node.getA tp "name" == some nm)).foldl
      (fun st temp =>
        match st with
        | .error e => .error e
        | .ok (env', ele') => Resolvers.expandOne env' ele' temp)
      st := by
  induction temps generalizing st with
  | nil => rfl
  | cons t ts ih =>
      by_cases h : (Node.getA t "name" == some nm) = true
      · cases st with
        | error e =>
            simp only [List.foldl_cons, List.filter_cons, h, eq_self_iff_true, if_true]
            exact ih _
        | ok p =>
            cases p with
            | mk e x =>
                simp only [List.foldl_cons, List.filter_cons, h, eq_self_iff_true, if_true]
                exact ih _
      · cases st with
        | error e =>
            simp only [List.foldl_cons, List.filter_cons, h, if_false]
            exact ih _
        | ok p =>
            cases p with
            | mk e x =>
                simp only [List.foldl_cons, List.filter_cons, h, if_false]
                exact ih _

/-- Claim C7: the template resolver derives the requested name by dropping
the tag's trailing marker, selects the registry, and runs the expansion
for EVERY snapshot whose declared `name` attribute equals the requested
name, threading state in registry order.  When no snapshot matches the
element is unchanged and when exactly one matches the content derives
from that snapshot; with several matches the content derives from the
last matching snapshot, not the first. -/
theorem claim_C7_template_lookup (env : Env) (ele : Node) :
    (Resolvers.getTemp env ele
      = ((if Node.getA ele "from" == some "handy-ui" then env.tempsUI else env.temps).filter
          (fun tp => Node.getA tp "name" == some ((Node.tagOf ele).dropRight 1))).foldl
          (fun st temp =>
            match st with
            | .error e => .error e
            | .ok (env', ele') => Resolvers.expandOne env' ele' temp)
          (.ok (env, ele)))
    ∧ (((if Node.getA ele "from" == some "handy-ui" then env.tempsUI else env.temps).filter
          (fun tp => Node.getA tp "name" == some ((Node.tagOf ele).dropRight 1))) = []
        → Resolvers.getTemp env ele = .ok (env, ele))
    ∧ (∀ t, ((if Node.getA ele "from" == some "handy-ui" then env.tempsUI else env.temps).filter
          (fun tp => Node.getA tp "name" == some ((Node.tagOf ele).dropRight 1))) = [t]
        → Resolvers.getTemp env ele = Resolvers.expandOne env ele t)
    ∧ (∀ t1 t2, ((if Node.getA ele "from" == some "handy-ui" then env.tempsUI else env.temps).filter
          (fun tp => Node.getA tp "name" == some ((Node.tagOf ele).dropRight 1))) = [t1, t2]
        → Resolvers.getTemp env ele
            = (match Resolvers.expandOne env ele t1 with
               | .error e => .error e
               | .ok (e1, x1) => Resolvers.expandOne e1 x1 t2)) := by
  have h1 : Resolvers.getTemp env ele
      = ((if Node.getA ele "from" == some "handy-ui" then env.tempsUI else env.temps).filter
          (fun tp => Node.getA tp "name" == some ((Node.tagOf ele).dropRight 1))).foldl
          (fun st temp =>
            match st with
            | .error e => .error e
            | .ok (env', ele') => Resolvers.expandOne env' ele' temp)
          (.ok (env, ele)) :=
    getTempFold_filter ((Node.tagOf ele).dropRight 1)
      (if Node.getA ele "from" == some "handy-ui" then env.tempsUI else env.temps)
      (.ok (env, ele))
  refine ⟨h1, ?_, ?_, ?_⟩
  · intro hf
    rw [h1, hf]
    rfl
  · intro t hf
    rw [h1, hf]
    rfl
  · intro t1 t2 hf
    rw [h1, hf]
    rfl

/-- Counterexample to claim C7 as frozen: with two registered snapshots
both named `card`, the instantiated content derives from the LAST
matching snapshot (each match is expanded in turn over the previous
result), not from the first matching snapshot alone. -/
theorem claim_C7_counterexample :
    List.filter (fun tp => Node.getA tp "name" == some ((Node.tagOf tempCallC7).dropRight 1))
        tempEnvC7.temps = [tempCard1, tempCard2]
    ∧ rOut (Resolvers.expandOne tempEnvC7 tempCallC7 tempCard1)
        = some (.elt "card." [] [] (.cons (.txt "ONE[kid]") .nil))
    ∧ rOut (Resolvers.getTemp tempEnvC7 tempCallC7)
        = some (.elt "card." [] [] (.cons (.txt "TWO[ONE[kid]]") .nil))
    ∧ rOut (Resolvers.getTemp tempEnvC7 tempCallC7)
        ≠ rOut (Resolvers.expandOne tempEnvC7 tempCallC7 tempCard1) := by
  refine ⟨by decide, by decide, by decide, by decide⟩

/-- Witness for claim C7: on the two-snapshot registry the resolver is
the chained expansion through both matching snapshots, and the resulting
content wraps the first expansion inside the second. -/
theorem claim_C7_witness :
    Resolvers.getTemp tempEnvC7 tempCallC7
      = (match Resolvers.expandOne tempEnvC7 tempCallC7 tempCard1 with
         | .error e => .error e
         | .ok (e1, x1) => Resolvers.expandOne e1 x1 tempCard2) :=
  (claim_C7_template_lookup tempEnvC7 tempCallC7).2.2.2 tempCard1 tempCard2 (by decide)

/-- `setAttribute` read-back: after `insertAssocS` the written key maps to
the written value. -/
theorem lookup_insertAssocS_self (l : List (String × String)) (k v : String) :
    (Node.insertAssocS l k v).lookup k = some v := by
  induction l with
  | nil => simp [Node.insertAssocS, List.lookup]
  | cons p tl ih =>
      cases p with
      | mk k' v' =>
          by_cases h : k' = k
          · simp [Node.insertAssocS, h, List.lookup]
          · simp only [Node.insertAssocS, List.lookup]
            rw [if_neg (by simpa using h)]
            simp only [List.lookup]
            rw [show (k == k') = false from by simpa using fun hk => h hk.symm]
            exact ih

/-- Claim C8: during template expansion every caller attribute of the
form `slotName.attributeName` is projected onto each target whose
`target` attribute equals `slotName`; the `class` suffix appends the
value (space-separated) to the target's existing class list, any other
suffix replaces the target's attribute value, and the expansion step
applies exactly this projection to the cloned snapshot before the
`_children_` substitution. -/
theorem claim_C8_class_append (tt : String) (ta : List (String × String))
    (tst : List (String × String)) (tcs : NodeList) (slot c v att sfx : String)
    (htgt : Node.getA (.elt tt ta tst tcs) "target" = some slot)
    (hpre : strIsPrefixOf (slot ++ ".") att = true)
    (hdrop : att.drop (slot.length + 1) = sfx) :
    (sfx = "class" → Node.getA (.elt tt ta tst tcs) "class" = some c →
      Resolvers.projectOne att v (.elt tt ta tst tcs)
        = Node.setAttr (.elt tt ta tst tcs) "class" (c ++ " " ++ v)
      ∧ Node.getA (Resolvers.projectOne att v (.elt tt ta tst tcs)) "class"
        = some (c ++ " " ++ v))
    ∧ ((sfx == "class") = false →
      Resolvers.projectOne att v (.elt tt ta tst tcs)
        = Node.setAttr (.elt tt ta tst tcs) sfx v
      ∧ Node.getA (Resolvers.projectOne att v (.elt tt ta tst tcs)) sfx = some v)
    ∧ (∀ env ele temp, Resolvers.expandOne env ele temp
        = Resolvers.dataAtr env (Node.setInnerStr ele
            (HandyStr.replaceAllStr
              (Node.innerStr (Resolvers.projectAtts ele
                ((HtmlParse.elementFromHtml (Node.serialize temp)).getD
                  (.elt "div" [] [] .nil))))
              "_children_" (Node.innerStr ele)))) := by
  have hbase : Resolvers.projectOne att v (.elt tt ta tst tcs)
      = (if sfx == "class" then
          Node.setAttr (.elt tt ta tst tcs) sfx
            (((Node.getA (.elt tt ta tst tcs) "class").getD "null") ++ " " ++ v)
         else Node.setAttr (.elt tt ta tst tcs) sfx v) := by
    simp only [Resolvers.projectOne, htgt, Option.getD_some, hpre, eq_self_iff_true, if_true,
      hdrop]
  refine ⟨?_, ?_, ?_⟩
  · intro hs hcls
    subst hs
    have heq : Resolvers.projectOne att v (.elt tt ta tst tcs)
        = Node.setAttr (.elt tt ta tst tcs) "class" (c ++ " " ++ v) := by
      rw [hbase, if_pos (show (("class" : String) == "class") = true by decide), hcls]
      rfl
    exact ⟨heq, by rw [heq]; exact lookup_insertAssocS_self ta "class" (c ++ " " ++ v)⟩
  · intro hne
    have heq : Resolvers.projectOne att v (.elt tt ta tst tcs)
        = Node.setAttr (.elt tt ta tst tcs) sfx v := by
      rw [hbase, if_neg (by simp [hne])]
    exact ⟨heq, by rw [heq]; exact lookup_insertAssocS_self ta sfx v⟩
  · intro env ele temp
    rfl

/-- Witness for claim C8 at the specification's example: the `card`
template's `title` target receiving `title.class="big"` gets `big`
appended to its existing class `hdr`, and the full template instantiation
yields the target with class `hdr big`. -/
theorem claim_C8_witness :
    Resolvers.projectOne "title.class" "big" cardTarget
      = Node.setAttr cardTarget "class" ("hdr" ++ " " ++ "big")
    ∧ Node.getA (Resolvers.projectOne "title.class" "big" cardTarget) "class"
        = some ("hdr" ++ " " ++ "big")
    ∧ rOut (Resolvers.getTemp cardEnv cardCall)
        = some (.elt "card." [("title.class", "big")] []
            (.cons (.elt "h1" [("target", "title"), ("class", "hdr big")] [] .nil) .nil)) := by
  have h := (claim_C8_class_append "h1" [("target", "title"), ("class", "hdr")] [] .nil
      "title" "hdr" "big" "title.class" "class"
      (by decide) (by decide) (by decide)).1 rfl (by decide)
  exact ⟨h.1, h.2, by decide⟩

/-- Property-assignment read-back on field lists: after `insert` the
written key maps to the written value. -/
theorem JFields_lookup_insert_self : (fs : JFields) → (k : String) → (v : JVal) →
    (fs.insert k v).lookup k = some v
  | .nil, k, v => by simp [JFields.insert, JFields.lookup]
  | .cons k' v' tl, k, v => by
      by_cases h : (k' == k) = true
      · simp [JFields.insert, JFields.lookup, h]
      · simp only [JFields.insert]
        rw [if_neg (by simpa using h)]
        simp only [JFields.lookup]
        rw [if_neg (by simpa using h)]
        exact JFields_lookup_insert_self tl k v

/-- Dotted-path read-back: on an all-object spine, reading the path after
`setPathE` returns exactly the assigned value. -/
theorem getPath_setPath : (path : List String) → (obj nv obj' : JVal) →
    JVal.pathObjOk path obj = true → JVal.setPathE path obj nv = .ok obj' →
    JVal.getPathE path obj' = .ok nv
  | [], obj, nv, obj', _, hset => by
      have h : nv = obj' := by simpa [JVal.setPathE] using hset
      simpa [JVal.getPathE] using h.symm
  | [k], obj, nv, obj', hok, hset => by
      cases obj with
      | obj fs =>
          have h : JVal.obj (fs.insert k nv) = obj' := by
            simpa [JVal.setPathE] using hset
          rw [← h]
          simp [JVal.getPathE, JFields_lookup_insert_self]
      | undef => simp [JVal.pathObjOk] at hok
      | null => simp [JVal.pathObjOk] at hok
      | bool b => simp [JVal.pathObjOk] at hok
      | num n => simp [JVal.pathObjOk] at hok
      | nan => simp [JVal.pathObjOk] at hok
      | str s => simp [JVal.pathObjOk] at hok
      | func s => simp [JVal.pathObjOk] at hok
      | date d => simp [JVal.pathObjOk] at hok
      | regex r => simp [JVal.pathObjOk] at hok
      | arr xs => simp [JVal.pathObjOk] at hok
  | k :: k2 :: rest, obj, nv, obj', hok, hset => by
      cases obj with
      | obj fs =>
          cases hsub : fs.lookup k with
          | none =>
              rw [show JVal.pathObjOk (k :: k2 :: rest) (.obj fs)
                  = (match fs.lookup k with
                     | some sub => JVal.pathObjOk (k2 :: rest) sub
                     | none => false) from rfl, hsub] at hok
              exact absurd hok (by simp)
          | some sub =>
              have hok' : JVal.pathObjOk (k2 :: rest) sub = true := by
                rw [show JVal.pathObjOk (k :: k2 :: rest) (.obj fs)
                    = (match fs.lookup k with
                       | some s => JVal.pathObjOk (k2 :: rest) s
                       | none => false) from rfl, hsub] at hok
                exact hok
              have hset' : (JVal.setPathE (k2 :: rest) sub nv).map
                  (fun sub' => JVal.obj (fs.insert k sub')) = .ok obj' := by
                rw [show JVal.setPathE (k :: k2 :: rest) (.obj fs) nv
                    = (match fs.lookup k with
                       | some s => (JVal.setPathE (k2 :: rest) s nv).map
                           (fun sub' => JVal.obj (fs.insert k sub'))
                       | none => .error ("TypeError: cannot set through missing " ++ k))
                    from rfl, hsub] at hset
                exact hset
              cases hs : JVal.setPathE (k2 :: rest) sub nv with
              | error m => rw [hs] at hset'; exact absurd hset' (by simp [Except.map])
              | ok sub' =>
                  rw [hs] at hset'
                  have hobj : JVal.obj (fs.insert k sub') = obj' := by
                    simpa [Except.map] using hset'
                  rw [← hobj]
                  rw [show JVal.getPathE (k :: k2 :: rest) (.obj (fs.insert k sub'))
                      = JVal.getPathE (k2 :: rest)
                          (((fs.insert k sub').lookup k).getD .undef) from rfl]
                  rw [JFields_lookup_insert_self]
                  exact getPath_setPath (k2 :: rest) sub nv sub' hok' hs
      | undef => simp [JVal.pathObjOk] at hok
      | null => simp [JVal.pathObjOk] at hok
      | bool b => simp [JVal.pathObjOk] at hok
      | num n => simp [JVal.pathObjOk] at hok
      | nan => simp [JVal.pathObjOk] at hok
      | str s => simp [JVal.pathObjOk] at hok
      | func s => simp [JVal.pathObjOk] at hok
      | date d => simp [JVal.pathObjOk] at hok
      | regex r => simp [JVal.pathObjOk] at hok
      | arr xs => simp [JVal.pathObjOk] at hok

/-- Storage read-back: after `assocSet` the written name maps to the
written value. -/
theorem lookup_assocSet_self {α : Type} (l : List (String × α)) (k : String) (v : α) :
    (assocSet l k v).lookup k = some v := by
  induction l with
  | nil => simp [assocSet, List.lookup]
  | cons p tl ih =>
      cases p with
      | mk k' v' =>
          by_cases h : k' = k
          · simp [assocSet, h, List.lookup]
          · simp only [assocSet]
            rw [if_neg (by simpa using h)]
            simp only [List.lookup]
            rw [show (k == k') = false from by simpa using fun hk => h hk.symm]
            exact ih

/-- Rewriting the content leaves the attributes untouched. -/
theorem getA_setInnerStr (n : Node) (s k : String) :
    Node.getA (Node.setInnerStr n s) k = Node.getA n k := by
  cases n <;> rfl

/-- The snapshot-restore helper leaves the attributes untouched. -/
theorem getA_getInnerFold (snaps : List Node) (ele : Node) (k : String) :
    Node.getA (Walker.getInnerFold snaps ele) k = Node.getA ele k := by
  induction snaps generalizing ele with
  | nil => rfl
  | cons s tl ih =>
      rw [show Walker.getInnerFold (s :: tl) ele
          = Walker.getInnerFold tl
              (if Node.getA s "name" == Node.getA ele "name" then
                Node.setInnerStr ele (Node.innerStr s)
               else ele) from rfl]
      rw [ih]
      by_cases h : (Node.getA s "name" == Node.getA ele "name") = true
      · rw [if_pos h, getA_setInnerStr]
      · rw [if_neg h]

/-- One token substitution leaves the attributes untouched. -/
theorem getA_replFieldNamed (ele : Node) (k0 : String) (v : JVal) (k : String) :
    Node.getA (Resolvers.replFieldNamed ele k0 v) k = Node.getA ele k := by
  by_cases h : (k0 == "set") = true
  · simp [Resolvers.replFieldNamed, h]
  · simp only [Resolvers.replFieldNamed]
    rw [if_neg (by simpa using h), getA_setInnerStr]

/-- The whole `_key_` substitution loop leaves the attributes untouched. -/
theorem getA_replaceFieldsEle : (fs : JFields) → (ele : Node) → (k : String) →
    Node.getA (Resolvers.replaceFieldsEle fs ele) k = Node.getA ele k
  | .nil, _, _ => rfl
  | .cons k0 v tl, ele, k => by
      rw [show Resolvers.replaceFieldsEle (.cons k0 v tl) ele
          = Resolvers.replaceFieldsEle tl (Resolvers.replFieldNamed ele k0 v) from rfl]
      rw [getA_replaceFieldsEle tl _ k, getA_replFieldNamed]

/-- When none of the eight triggers fires, the caught resolver chain is
the identity on state and element. -/
theorem step_noTrig (env : Env) (c : Node)
    (h : (Walker.guardLoop c || Walker.guardData c || Walker.guardCode c ||
          Walker.guardIf c || Walker.guardStyling c || Walker.guardInside c ||
          Walker.guardTemp c || Walker.guardText c) = false) :
    Walker.step env c = .ok (env, c) := by
  simp only [Bool.or_eq_false_iff] at h
  obtain ⟨⟨⟨⟨⟨⟨⟨h1, h2⟩, h3⟩, h4⟩, h5⟩, h6⟩, h7⟩, h8⟩ := h
  simp only [Walker.step, Walker.phase, h1, h2, h3, h4, h5, h6, h7, h8,
    Bool.false_eq_true, if_false]

/-- Child processing is the identity on a trigger-free child list,
provided the recursive walk is. -/
theorem processKids_id (fuel : Nat)
    (hf : ∀ env n, Walker.trigFreeN n = true → Walker.htmlLogic fuel env n = (env, n)) :
    (env : Env) → (cs : NodeList) → Walker.trigFreeL cs = true →
    Walker.processKids (Walker.catchStep (fun e n => Walker.htmlLogic fuel e n)) env cs
      = (env, cs)
  | _, .nil, _ => rfl
  | env, .cons (.txt s) tl, h => by
      have htl : Walker.trigFreeL tl = true := ((Bool.and_eq_true _ _).mp h).2
      simp only [Walker.processKids]
      rw [processKids_id fuel hf env tl htl]
  | env, .cons (.elt t a st cs) tl, h => by
      have h1 : Walker.trigFreeN (.elt t a st cs) = true := ((Bool.and_eq_true _ _).mp h).1
      have htl : Walker.trigFreeL tl = true := ((Bool.and_eq_true _ _).mp h).2
      have hguards : (Walker.guardLoop (.elt t a st cs) || Walker.guardData (.elt t a st cs) ||
          Walker.guardCode (.elt t a st cs) || Walker.guardIf (.elt t a st cs) ||
          Walker.guardStyling (.elt t a st cs) || Walker.guardInside (.elt t a st cs) ||
          Walker.guardTemp (.elt t a st cs) || Walker.guardText (.elt t a st cs)) = false := by
        have h2 := ((Bool.and_eq_true _ _).mp h1).1
        simpa only [Bool.not_eq_true'] using h2
      have hcatch : Walker.catchStep (fun e n => Walker.htmlLogic fuel e n) env (.elt t a st cs)
          = (env, .elt t a st cs) := by
        simp only [Walker.catchStep, step_noTrig env (.elt t a st cs) hguards]
        exact hf env (.elt t a st cs) h1
      simp only [Walker.processKids]
      rw [hcatch]
      simp only []
      rw [processKids_id fuel hf env tl htl]

/-- The walker is the identity on a trigger-free subtree. -/
theorem htmlLogic_noTrig : (fuel : Nat) → ∀ env n, Walker.trigFreeN n = true →
    Walker.htmlLogic fuel env n = (env, n)
  | 0, _, _, _ => rfl
  | _ + 1, _, .txt _, _ => rfl
  | fuel + 1, env, .elt t a st cs, h => by
      have hcs : Walker.trigFreeL cs = true := ((Bool.and_eq_true _ _).mp h).2
      simp only [Walker.htmlLogic]
      rw [processKids_id fuel (fun env n hn => htmlLogic_noTrig fuel env n hn) env cs hcs]

/-- The walker only visits an element's children, so it is the identity
whenever the children are trigger-free (the root's own attributes are
never examined). -/
theorem htmlLogic_kidsFree : (fuel : Nat) → (env : Env) → (n : Node) →
    Walker.trigFreeL (Node.childrenOf n) = true → Walker.htmlLogic fuel env n = (env, n)
  | 0, _, _, _ => rfl
  | _ + 1, _, .txt _, _ => rfl
  | fuel + 1, env, .elt t a st cs, h => by
      simp only [Walker.htmlLogic]
      rw [processKids_id fuel (fun env n hn => htmlLogic_noTrig fuel env n hn) env cs h]

/-- `Except` bind on a success reduces to the continuation. -/
theorem bind_ok_red {α β : Type} (a : α) (f : α → Except String β) :
    (Except.ok a >>= f) = f a := rfl

/-- Claim C2: for a named data binding, every invocation of the installed
`set(path, valueOrUpdater)` mutator assigns through the dotted path (the
literal value, or the updater applied to the current value, both through
the `JSON.stringify` round trip), after which the stored object read back
under the binding's name is the updated object, reading the dotted path
returns the assigned value, the `data` attribute equals the serialization
of the stored object, and the element's content is the snapshot content
with the `_key_` tokens re-substituted against the updated fields. -/
theorem claim_C2_set_sync (fuel : Nat) (env : Env) (t : String)
    (a st : List (String × String)) (cs : NodeList) (item nm : String)
    (arg : Walker.SetArg) (obj₀ nv obj₁ : JVal)
    (hnm : Node.getA (.elt t a st cs) "name" = some nm)
    (hw : env.window.lookup nm = some obj₀)
    (hnv : Walker.newValArg obj₀ item arg = .ok nv)
    (hpok : JVal.pathObjOk (splitDots item) obj₀ = true)
    (hset : JVal.setPathE (splitDots item) obj₀ nv = .ok obj₁)
    (htf : Walker.trigFreeL (Node.childrenOf (Resolvers.replaceFieldsEle (JVal.fieldsOf obj₁)
        (Walker.getInnerFold env.dataSnapshots
          (Node.setAttr (.elt t a st cs) "data" (JVal.jsonStringify obj₁))))) = true) :
    Walker.setFun fuel env (.elt t a st cs) item arg
      = .ok ({ env with window := assocSet env.window nm obj₁ },
          Resolvers.replaceFieldsEle (JVal.fieldsOf obj₁)
            (Walker.getInnerFold env.dataSnapshots
              (Node.setAttr (.elt t a st cs) "data" (JVal.jsonStringify obj₁))))
    ∧ (assocSet env.window nm obj₁).lookup nm = some obj₁
    ∧ JVal.getPathE (splitDots item) obj₁ = .ok nv
    ∧ (∀ w, Walker.newValArg obj₀ item (.val w) = .ok (JVal.jsonRound w))
    ∧ (∀ f cur, JVal.getPathE (splitDots item) obj₀ = .ok cur →
        Walker.newValArg obj₀ item (.upd f) = .ok (JVal.jsonRound (f cur)))
    ∧ Node.getA (Resolvers.replaceFieldsEle (JVal.fieldsOf obj₁)
          (Walker.getInnerFold env.dataSnapshots
            (Node.setAttr (.elt t a st cs) "data" (JVal.jsonStringify obj₁)))) "data"
        = some (JVal.jsonStringify obj₁) := by
  refine ⟨?_, lookup_assocSet_self env.window nm obj₁,
    getPath_setPath (splitDots item) obj₀ nv obj₁ hpok hset, fun w => rfl, ?_, ?_⟩
  · simp only [Walker.setFun, hnm, Option.getD_some, hw, hnv, hset, bind_ok_red]
    rw [htmlLogic_kidsFree fuel _ _ htf]
    rfl
  · intro f cur hcur
    simp only [Walker.newValArg, hcur, Except.map]
  · rw [getA_replaceFieldsEle, getA_getInnerFold]
    exact lookup_insertAssocS_self a "data" (JVal.jsonStringify obj₁)

/-- Witness for claim C2 at the specification's example: starting from
`data="{count:1}"` and `name="n"`, calling `set("count", v => v+1)`
stores count 2, re-serializes the attribute to `{"count":2}`, and renders
the snapshot's `_count_` token as `2`. -/
theorem claim_C2_witness :
    Walker.setFun 1 envC2 eleC2 "count" (.upd updC2)
      = .ok ({ envC2 with window := [("n", objC2sub)] },
          .elt "div" [("data", "\x7b\"count\":2\x7d"), ("name", "n")] []
            (.cons (.txt "2") .nil))
    ∧ [("n", objC2sub)].lookup "n" = some objC2sub
    ∧ JVal.getPathE ["count"] objC2sub = .ok (.num 2) := by
  have h := claim_C2_set_sync 1 envC2 "div" [("data", "\x7bcount:1\x7d"), ("name", "n")] []
      (.cons (.txt "1") .nil) "count" "n" (.upd updC2) objC2 (.num 2) objC2sub
      rfl rfl (by decide) (by decide) (by decide) (by decide)
  exact ⟨h.1, h.2.1, h.2.2.1⟩
